import Mathlib

/-!
Shallow embedding of the bulker stream-lifecycle engine
(`src/implementations/file_storage/abstract.go`, `src/unnamed/part_000`)
together with proofs of the specification claims.

Go maps are modelled as association lists with in-place update, Go sets as
duplicate-free lists, machine strings as `String`, and fallible calls as
`Option`/`Except` results threaded through explicit state passing.  Methods
that mutate the receiver and return an error are modelled as functions
returning the updated stream paired with `Option String`.
-/

namespace Bulker

/-- Event objects: flat maps from column name to value.  Values are kept as
strings; the claims under verification never inspect value types, and
`fmt.Sprint` of a value is then the value itself. -/
abbrev Object := List (String × String)

/-- Association-list lookup, modelling Go map read. -/
def alookup {β : Type} (k : String) : List (String × β) → Option β
  | [] => none
  | kv :: t => if kv.1 = k then some kv.2 else alookup k t

/-- Association-list insert-or-update, modelling Go map write. -/
def aput {β : Type} (k : String) (v : β) : List (String × β) → List (String × β)
  | [] => [(k, v)]
  | kv :: t => if kv.1 = k then (k, v) :: t else kv :: aput k v t

/-- Association-list key removal, modelling Go map delete. -/
def aremove {β : Type} (k : String) : List (String × β) → List (String × β)
  | [] => []
  | kv :: t => if kv.1 = k then t else kv :: aremove k t

/-- Set insert (`utils.Set.Put`). -/
def sput (n : Nat) (s : List Nat) : List Nat :=
  if n ∈ s then s else s ++ [n]

/-- `utils.MapPutAll src dst`: every entry of `src` written into `dst`. -/
def mapPutAll {β : Type} (src dst : List (String × β)) : List (String × β) :=
  src.foldl (fun acc kv => aput kv.1 kv.2 acc) dst

/-- `utils.Set.PutAllKeys`: add all keys of an object to a string set. -/
def putAllKeys (s : List String) (o : Object) : List String :=
  o.foldl (fun acc kv => if kv.1 ∈ acc then acc else acc ++ [kv.1]) s

/-- Stream status (`bulker.Status`). -/
inductive Status
  | active
  | completed
  | aborted
  | failed
deriving DecidableEq, Repr

/-- `bulker.State`: counters and error capture of one stream run.
`ErrorRowIndex` is a plain Go `int` field, modelled as `Nat`. -/
structure StreamState where
  status : Status
  processedRows : Nat
  successfulRows : Nat
  errorRowIndex : Nat
  lastError : Option String
deriving DecidableEq, Repr

/-- Modelled from the spec: `bulker.State.SetError` (declared outside `src/`)
records the error on the state (§4.7: `lastError = err`); it touches no
counter and no status. -/
def StreamState.setError (st : StreamState) (e : String) : StreamState :=
  { st with lastError := some e }

/-- A marshaller is identified by its format and compression
(`types.Marshaller`); `Equal` is format/compression identity (§4.2). -/
structure Marshaller where
  format : String
  compression : String
deriving DecidableEq, Repr

/-- Modelled from the spec: `Marshaller.NeedHeader` (codecs live outside
`src/`) — CSV needs a header line, NDJSON variants do not (§4.2). -/
def Marshaller.needHeader (m : Marshaller) : Bool :=
  m.format == "csv"

/-- `types.Marshaller.Equal`: format/compression identity. -/
def Marshaller.equal (a b : Marshaller) : Bool :=
  a.format == b.format && a.compression == b.compression

/-- `types.JSONMarshaller`: NDJSON, no compression, no header. -/
def jsonMarshaller : Marshaller :=
  { format := "ndjson", compression := "none" }

/-- One line of a local batch file: either the header emitted by
`Marshaller.Init`, or one marshalled event object. -/
inductive Line
  | header (cols : List String)
  | obj (o : Object)
deriving DecidableEq, Repr

/-- The object held by a line, if the line is not a header. -/
def Line.objOf : Line → Option Object
  | .obj o => some o
  | .header _ => none

/-- The event objects stored in a batch file, in file order. -/
def objectsOf (ls : List Line) : List Object :=
  ls.filterMap Line.objOf

/-- `Marshaller.Init` on a batch file: idempotent; on first call it emits the
header when the marshaller needs one.  Returns the initialized flag and the
file content. -/
def marshallerInit (needHeader : Bool) (headerInited : Bool) (hdr : List String)
    (file : List Line) : Bool × List Line :=
  if headerInited then (true, file)
  else if needHeader then (true, file ++ [Line.header hdr])
  else (true, file)

/-- The merge-mode deduplication bookkeeping shared verbatim by
`AbstractFileStorageStream.writeToBatchFile` and
`AbstractTransactionalSQLStream.writeToBatchFile`. -/
structure MergeInfo where
  linesByPK : List (String × Nat)
  skipLines : List Nat
deriving DecidableEq, Repr

/-- One step of the merge bookkeeping: if the PK was already seen at line
`k`, add `k` to the skip set; record the current line number (offset by one
when the marshaller needs a header) as the new location of the PK. -/
def mergeStep (mi : MergeInfo) (eventsInBatch : Nat) (needHeader : Bool)
    (pk : String) : MergeInfo :=
  let skip :=
    match alookup pk mi.linesByPK with
    | some line => sput line mi.skipLines
    | none => mi.skipLines
  let lineNumber := if needHeader then eventsInBatch + 1 else eventsInBatch
  { linesByPK := aput pk lineNumber mi.linesByPK, skipLines := skip }

/-- Folding the merge bookkeeping over the PK strings of a batch from an
arbitrary starting state, together with the `eventsInBatch` counter. -/
def runMergeFrom (needHeader : Bool) (st : MergeInfo × Nat) (pks : List String) :
    MergeInfo × Nat :=
  pks.foldl (fun acc pk => (mergeStep acc.1 acc.2 needHeader pk, acc.2 + 1)) st

/-- Folding the merge bookkeeping over the PK strings of a batch, together
with the `eventsInBatch` counter. -/
def runMerge (needHeader : Bool) (pks : List String) : MergeInfo × Nat :=
  runMergeFrom needHeader (⟨[], []⟩, 0) pks

/-! ## File-storage stream (`AbstractFileStorageStream`) -/

/-- `implementations.FileAdapter` capability surface used by the stream:
its batch file format and compression. -/
structure FileAdapter where
  format : String
  compression : String
deriving DecidableEq, Repr

/-- `AbstractFileStorageStream`.  Event-time tracking
(`firstEventTime`/`lastEventTime`) is not modelled: no claim refers to it. -/
structure AbstractFileStorageStream where
  id : String
  fileAdapter : FileAdapter
  flatten : Bool
  merge : Bool
  pkColumns : List String
  timestampColumn : String
  batchFile : Option (List Line)
  marshaller : Marshaller
  targetMarshaller : Marshaller
  headerInited : Bool
  eventsInBatch : Nat
  batchFileLinesByPK : List (String × Nat)
  batchFileSkipLines : List Nat
  csvHeader : List String
  state : StreamState
  inited : Bool
deriving DecidableEq, Repr

/-- `newAbstractFileStorageStream`: `MergeRows` without `PrimaryKey` is a
configuration error and no stream is created. -/
def newAbstractFileStorageStream (id : String) (p : FileAdapter)
    (mergeRows : Bool) (pkColumns : List String) (timestampColumn : String) :
    Except String AbstractFileStorageStream :=
  if mergeRows && pkColumns.isEmpty then
    .error "MergeRows option requires primary key option. Please provide WithPrimaryKey option"
  else
    .ok { id := id
          fileAdapter := p
          flatten := false
          merge := mergeRows
          pkColumns := pkColumns
          timestampColumn := timestampColumn
          batchFile := none
          marshaller := jsonMarshaller
          targetMarshaller := jsonMarshaller
          headerInited := false
          eventsInBatch := 0
          batchFileLinesByPK := []
          batchFileSkipLines := []
          csvHeader := []
          state := { status := .active, processedRows := 0, successfulRows := 0,
                     errorRowIndex := 0, lastError := none }
          inited := false }

namespace AbstractFileStorageStream

/-- `init`: idempotent; creates the batch file, the NDJSON on-disk marshaller
and the adapter-format target marshaller, and turns flattening on for
CSV/NDJSON-flat targets. -/
def init (ps : AbstractFileStorageStream) : AbstractFileStorageStream :=
  if ps.inited then ps
  else
    let ps :=
      if ps.batchFile.isNone then
        { ps with
          batchFile := some []
          marshaller := jsonMarshaller
          targetMarshaller :=
            { format := ps.fileAdapter.format, compression := ps.fileAdapter.compression }
          flatten := ps.fileAdapter.format == "csv" || ps.fileAdapter.format == "ndjson_flat" }
      else ps
    { ps with inited := true }

/-- `preprocess`: objects in this model are already flat, and flattening is
the identity on flat objects (§4.4, "idempotent on already-flat input"). -/
def preprocess (ps : AbstractFileStorageStream) (object : Object) : Object :=
  if ps.flatten then object else object

/-- `postConsume` (file-storage variant, lines 107-116): on error it records
`errorRowIndex` and `lastError`; on success it increments `successfulRows`.
`processedRows` is not touched anywhere in this stream. -/
def postConsume (ps : AbstractFileStorageStream) (err : Option String) :
    AbstractFileStorageStream × Option String :=
  match err with
  | some e =>
      ({ ps with state :=
          { (ps.state.setError e) with errorRowIndex := ps.state.processedRows } }, some e)
  | none =>
      ({ ps with state := { ps.state with successfulRows := ps.state.successfulRows + 1 } },
        none)

/-- `getPKValue` (file-storage variant, lines 218-244): a single primary-key
column missing from the object is a row-level error; for composite keys the
found values are concatenated, each followed by `_`. -/
def getPKValue (ps : AbstractFileStorageStream) (object : Object) :
    Except String String :=
  match ps.pkColumns with
  | [] => .error "primary key is not set"
  | [col] =>
      match alookup col object with
      | none => .error ("primary key [" ++ col ++ "] is not found in the object")
      | some v => .ok v
  | cols =>
      let s := cols.foldl
        (fun acc col =>
          match alookup col object with
          | some v => acc ++ v ++ "_"
          | none => acc) ""
      if s.length > 0 then .ok s else .error "primary key columns not found in the object"

/-- `writeToBatchFile` (file-storage variant, lines 246-271). -/
def writeToBatchFile (ps0 : AbstractFileStorageStream) (processedObject : Object) :
    AbstractFileStorageStream × Option String :=
  let header := List.insertionSort (fun a b => a ≤ b) ps0.csvHeader
  let r := marshallerInit ps0.marshaller.needHeader ps0.headerInited header
      (ps0.batchFile.getD [])
  let ps := { ps0 with headerInited := r.1, batchFile := some r.2 }
  if ps.merge then
    match ps.getPKValue processedObject with
    | .error e => (ps, some e)
    | .ok pk =>
        let mi := mergeStep ⟨ps.batchFileLinesByPK, ps.batchFileSkipLines⟩
          ps.eventsInBatch ps.marshaller.needHeader pk
        ({ ps with
            batchFileLinesByPK := mi.linesByPK
            batchFileSkipLines := mi.skipLines
            batchFile := some (r.2 ++ [Line.obj processedObject])
            eventsInBatch := ps.eventsInBatch + 1 }, none)
  else
    ({ ps with
        batchFile := some (r.2 ++ [Line.obj processedObject])
        eventsInBatch := ps.eventsInBatch + 1 }, none)

/-- `Consume` (file-storage variant, lines 273-302).  Event-time tracking is
elided (no claim refers to it). -/
def consume (ps0 : AbstractFileStorageStream) (object : Object) :
    AbstractFileStorageStream × Option String :=
  let ps := ps0.init
  let processedObject := ps.preprocess object
  let ps :=
    if ps.targetMarshaller.format == "csv" then
      { ps with csvHeader := putAllKeys ps.csvHeader processedObject }
    else ps
  let r := ps.writeToBatchFile processedObject
  r.1.postConsume r.2

end AbstractFileStorageStream

/-- A file uploaded to the file adapter (or loaded into the warehouse):
its declared format and its content lines. -/
structure Uploaded where
  format : String
  lines : List Line
deriving DecidableEq, Repr

/-- The line-copying pass of the rewrite: stream-read with index `i`, drop
lines whose index is in the skip set. -/
def scanKeep (skip : List Nat) : Nat → List Line → List Line
  | _, [] => []
  | i, l :: t =>
      if i ∈ skip then scanKeep skip (i + 1) t
      else l :: scanKeep skip (i + 1) t

/-- The converting pass of the rewrite: kept lines are JSON-decoded and
re-marshalled in the target format; decoding a non-JSON line (a header)
fails. -/
def scanConvert (skip : List Nat) : Nat → List Line → Except String (List Line)
  | _, [] => .ok []
  | i, l :: t =>
      if i ∈ skip then scanConvert skip (i + 1) t
      else
        match l with
        | .obj o => (scanConvert skip (i + 1) t).map (fun r => Line.obj o :: r)
        | .header _ => .error "failed to decode json object from batch filer"

/-- The shared finalize/rewrite logic of both `flushBatchFile` variants:
rewrite iff the skip set is non-empty or the on-disk format differs from the
target format; the converting rewrite first emits the target header when the
target marshaller needs one.  Returns the working file and whether a rewrite
happened. -/
def rewriteWork (marsh target : Marshaller) (hdr : List String)
    (skip : List Nat) (lines : List Line) : Except String (List Line × Bool) :=
  let needToConvert := !(Marshaller.equal target marsh)
  if !skip.isEmpty || needToConvert then
    if needToConvert then
      (scanConvert skip 0 lines).map
        (fun ls => ((if target.needHeader then [Line.header hdr] else []) ++ ls, true))
    else .ok (scanKeep skip 0 lines, true)
  else .ok (lines, false)

namespace AbstractFileStorageStream

/-- The deferred cleanup of `flushBatchFile`: reset the merge bookkeeping and
remove the batch file. -/
def flushCleanup (ps : AbstractFileStorageStream) : AbstractFileStorageStream :=
  let ps :=
    if ps.merge then { ps with batchFileLinesByPK := [], batchFileSkipLines := [] }
    else ps
  { ps with batchFile := none }

/-- `flushBatchFile` (file-storage variant, lines 130-216): when the batch is
non-empty, rewrite as needed and upload the working file to the file adapter.
Returns the stream, the uploaded file, the error, and whether a rewrite
happened.  Local I/O and upload faults are not modelled. -/
def flushBatchFile (ps : AbstractFileStorageStream) :
    AbstractFileStorageStream × Option Uploaded × Option String × Bool :=
  let lines := ps.batchFile.getD []
  if ps.eventsInBatch > 0 then
    let needToConvert := !(Marshaller.equal ps.targetMarshaller ps.marshaller)
    let header := List.insertionSort (fun a b => a ≤ b) ps.csvHeader
    match rewriteWork ps.marshaller ps.targetMarshaller header
        ps.batchFileSkipLines lines with
    | .error e => (ps.flushCleanup, none, some e, true)
    | .ok work =>
        (ps.flushCleanup,
          some { format := if needToConvert then ps.targetMarshaller.format
                           else ps.marshaller.format
                 lines := work.1 },
          none, work.2)
  else (ps.flushCleanup, none, none, false)

/-- `postComplete` (file-storage variant, lines 118-128): remove the batch
file; a non-nil error yields `Failed` (recording the error), otherwise
`Completed`.  `successfulRows` is not touched. -/
def postComplete (ps : AbstractFileStorageStream) (err : Option String) :
    AbstractFileStorageStream × StreamState × Option String :=
  let ps := { ps with batchFile := none }
  let ps :=
    match err with
    | some e => { ps with state := { (ps.state.setError e) with status := .failed } }
    | none => { ps with state := { ps.state with status := .completed } }
  (ps, ps.state, err)

/-- `Complete` (file-storage variant, lines 326-348). -/
def complete (ps : AbstractFileStorageStream) :
    AbstractFileStorageStream × StreamState × Option String × Option Uploaded :=
  if ps.state.status ≠ .active then (ps, ps.state, some "stream is not active", none)
  else
    let r :=
      match ps.state.lastError with
      | none =>
          if ps.state.successfulRows > 0 then
            if ps.batchFile.isSome then
              let f := ps.flushBatchFile
              (f.1, f.2.2.1, f.2.1)
            else (ps, none, none)
          else (ps, none, none)
      | some e => (ps, some e, none)
    let p := r.1.postComplete r.2.1
    (p.1, p.2.1, p.2.2, r.2.2)

/-- `Abort` (file-storage variant, lines 304-314). -/
def abort (ps : AbstractFileStorageStream) :
    AbstractFileStorageStream × StreamState × Option String :=
  if ps.state.status ≠ .active then (ps, ps.state, some "stream is not active")
  else
    let ps := { ps with batchFile := none }
    let ps := { ps with state := { ps.state with status := .aborted } }
    (ps, ps.state, none)

end AbstractFileStorageStream

/-! ## SQL side: tables, database, transaction, `ReplacePartitionStream` -/

/-- The stamped column of ReplacePartition mode (`PartitonIdKeyword`). -/
def PartitonIdKeyword : String := "__partition_id"

/-- In-memory table descriptor (`sql.Table`): name, columns (name → type),
primary-key fields, temporary flag. -/
structure Table where
  name : String
  columns : List (String × String)
  pkFields : List String
  temporary : Bool
deriving DecidableEq, Repr

/-- Sorted column names of a table (`Table.SortedColumnNames`). -/
def Table.sortedColumnNames (t : Table) : List String :=
  List.insertionSort (fun a b => a ≤ b) (t.columns.map Prod.fst)

/-- One destination-side table: its schema and its rows. -/
structure DBTable where
  columns : List (String × String)
  rows : List Object
deriving DecidableEq, Repr

/-- The destination database: tables by name.  `GetTableSchema` returning a
table with `Exists() == false` is modelled by lookup returning `none`. -/
abbrev DB := List (String × DBTable)

/-- The PK string of a row under the given PK fields (used by the upsert of
`CopyTables` with `merge = true`). -/
def rowPKString (pkFields : List String) (o : Object) : String :=
  String.intercalate "_###_" (pkFields.map (fun c => (alookup c o).getD "<nil>"))

/-- Operations buffered inside the stream's transaction; applied at commit,
discarded at rollback. -/
inductive TxOp
  | createTable (t : Table)
  | ensureTable (t : Table)
  | insertRow (name : String) (o : Object) (merge : Bool)
  | loadRows (name : String) (rows : List Object)
  | copyTables (dst : Table) (src : Table) (merge : Bool)
  | drop (name : String)
deriving DecidableEq, Repr

/-- Applying one transactional operation to the database. -/
def applyTxOp (db : DB) : TxOp → DB
  | .createTable t => aput t.name { columns := t.columns, rows := [] } db
  | .ensureTable t =>
      match alookup t.name db with
      | none => aput t.name { columns := t.columns, rows := [] } db
      | some ex => aput t.name { ex with columns := mapPutAll t.columns ex.columns } db
  | .insertRow n o merge =>
      match alookup n db with
      | none => db
      | some tbl =>
          if merge then
            aput n { tbl with rows :=
              (tbl.rows.filter (fun r => rowPKString [] r ≠ rowPKString [] o) ++ [o]) } db
          else aput n { tbl with rows := tbl.rows ++ [o] } db
  | .loadRows n rows =>
      match alookup n db with
      | none => db
      | some tbl => aput n { tbl with rows := tbl.rows ++ rows } db
  | .copyTables dst src merge =>
      match alookup src.name db, alookup dst.name db with
      | some s, some d =>
          if merge then
            let srcPKs := s.rows.map (rowPKString dst.pkFields)
            aput dst.name
              { d with rows :=
                  d.rows.filter (fun r => ¬ rowPKString dst.pkFields r ∈ srcPKs) ++ s.rows } db
          else aput dst.name { d with rows := d.rows ++ s.rows } db
      | _, _ => db
  | .drop n => aremove n db

/-- Modelled from the spec: `TableHelper.EnsureTableWithCaching` (declared
outside `src/`) reconciles the descriptor with the destination schema
additively — existing columns are kept, new ones added, none dropped
(§4.1, §9).  Returns the patched database and the reconciled table. -/
def ensureTableWithCaching (db : DB) (t : Table) : DB × Table :=
  match alookup t.name db with
  | none => (aput t.name { columns := t.columns, rows := [] } db, t)
  | some ex =>
      let cols := mapPutAll t.columns ex.columns
      (aput t.name { ex with columns := cols } db, { t with columns := cols })

/-- Observable side effects of `Complete`, in order.  `deleteViaAdapter` is
issued directly on the SQL adapter (autocommit), outside the stream's
transaction. -/
inductive Effect
  | deleteViaAdapter (table : String) (partitionId : String)
  | flushLoad
  | ensureDst
  | copyTables
  | txCommit
  | txRollback
deriving DecidableEq, Repr

/-- `ReplacePartitionStream` over `AbstractTransactionalSQLStream`.  The
random 8-character suffix of the tmp-table name is determinized. -/
structure ReplacePartitionStream where
  id : String
  tableName : String
  partitionId : String
  merge : Bool
  pkColumns : List String
  useBatchFile : Bool
  adapterFormat : String
  adapterCompression : String
  batchFile : Option (List Line)
  marshaller : Marshaller
  targetMarshaller : Marshaller
  headerInited : Bool
  eventsInBatch : Nat
  batchFileLinesByPK : List (String × Nat)
  batchFileSkipLines : List Nat
  tmpTable : Option Table
  dstTable : Option Table
  existingTable : Table
  txOpen : Bool
  txOps : List TxOp
  state : StreamState
  inited : Bool
deriving DecidableEq, Repr

/-- `newReplacePartitionStream`: the `PartitionId` option (empty string when
absent) is required; without it no stream is created. -/
def newReplacePartitionStream (id : String) (tableName : String)
    (partitionId : String) (merge : Bool) (pkColumns : List String)
    (useBatchFile : Bool) (adapterFormat : String) (adapterCompression : String) :
    Except String ReplacePartitionStream :=
  if partitionId = "" then
    .error "WithPartition is required option for ReplacePartitionStream"
  else
    .ok { id := id
          tableName := tableName
          partitionId := partitionId
          merge := merge
          pkColumns := pkColumns
          useBatchFile := useBatchFile
          adapterFormat := adapterFormat
          adapterCompression := adapterCompression
          batchFile := none
          marshaller := jsonMarshaller
          targetMarshaller := jsonMarshaller
          headerInited := false
          eventsInBatch := 0
          batchFileLinesByPK := []
          batchFileSkipLines := []
          tmpTable := none
          dstTable := none
          existingTable := { name := "", columns := [], pkFields := [], temporary := false }
          txOpen := false
          txOps := []
          state := { status := .active, processedRows := 0, successfulRows := 0,
                     errorRowIndex := 0, lastError := none }
          inited := false }

namespace ReplacePartitionStream

/-- `init` (transactional variant, lines 622-662): idempotent; creates the
local batch file and its marshallers (NDJSON on disk; the adapter format as
target; the no-merge NDJSON shortcut writes directly in the target format)
and opens the transaction.  The S3 staging route is not modelled. -/
def init (ps : ReplacePartitionStream) : ReplacePartitionStream :=
  if ps.inited then ps
  else
    let ps :=
      if ps.useBatchFile && ps.batchFile.isNone then
        let target : Marshaller :=
          { format := ps.adapterFormat, compression := ps.adapterCompression }
        let marsh :=
          if !ps.merge && ps.adapterFormat == "ndjson" then target
          else { jsonMarshaller with }
        { ps with marshaller := marsh, targetMarshaller := target, batchFile := some [] }
      else ps
    { ps with inited := true, txOpen := true }

/-- Modelled from the spec: `AbstractSQLStream.preprocess` (declared outside
`src/`) derives the candidate table of the object — one column per key with
an inferred type, carrying the stream's PK setup (§4.7 step 3). -/
def tableForObject (ps : ReplacePartitionStream) (o : Object) : Table :=
  { name := ps.tableName
    columns := o.foldl (fun acc kv => aput kv.1 "inferred" acc) []
    pkFields := ps.pkColumns
    temporary := false }

/-- The `tmpTableFunc` installed by `newReplacePartitionStream` (lines
34-48): a temporary table named `jitsu_tmp_<8 chars>` holding exactly the
columns of the object's table.  (The non-batch-file branch mutates a fetched
schema copy that the closure then discards.) -/
def tmpTableFunc (t : Table) : Table :=
  { name := "jitsu_tmp_" ++ "a1b2c3d4"
    columns := t.columns
    pkFields := []
    temporary := true }

/-- Modelled from the spec: `AbstractSQLStream.adjustTableColumnTypes`
(declared outside `src/`) widens the tmp-table schema additively by the
columns of the object's table; no column is removed (§4.1, §4.8 step 1). -/
def adjustTableColumnTypes (tmp _existing target : List (String × String)) :
    List (String × String) :=
  mapPutAll target tmp

/-- `adjustTables` (lines 905-914): first object fixes `dstTable` and builds
the tmp table; later objects widen the tmp table; `dstTable.Columns` is then
made equal to `tmpTable.Columns`. -/
def adjustTables (ps : ReplacePartitionStream) (targetTable : Table) :
    ReplacePartitionStream :=
  let ps :=
    match ps.tmpTable with
    | none =>
        { ps with dstTable := some targetTable, tmpTable := some (tmpTableFunc targetTable) }
    | some tmp =>
        { ps with tmpTable :=
            (some { tmp with columns :=
              (adjustTableColumnTypes tmp.columns ps.existingTable.columns targetTable.columns) }) }
  match ps.tmpTable with
  | some tmp =>
      { ps with dstTable := ps.dstTable.map (fun d => { d with columns := tmp.columns }) }
  | none => ps

/-- `getPKValue` (transactional variant, lines 957-973): missing PK values do
not fail — a missing value prints as `<nil>`; composite values are joined
with `_###_`. -/
def getPKValue (ps : ReplacePartitionStream) (object : Object) :
    Except String String :=
  match ps.pkColumns with
  | [] => .error "primary key is not set"
  | [col] => .ok ((alookup col object).getD "<nil>")
  | cols => .ok (String.intercalate "_###_" (cols.map (fun c => (alookup c object).getD "<nil>")))

/-- `writeToBatchFile` (transactional variant, lines 865-893).  The
representation-table update touches only telemetry and is elided. -/
def writeToBatchFile (ps0 : ReplacePartitionStream) (targetTable : Table)
    (processedObject : Object) : ReplacePartitionStream × Option String :=
  let ps := ps0.adjustTables targetTable
  let r := marshallerInit ps.marshaller.needHeader ps.headerInited []
      (ps.batchFile.getD [])
  let ps := { ps with headerInited := r.1, batchFile := some r.2 }
  if ps.merge then
    match ps.getPKValue processedObject with
    | .error e => (ps, some e)
    | .ok pk =>
        let mi := mergeStep ⟨ps.batchFileLinesByPK, ps.batchFileSkipLines⟩
          ps.eventsInBatch ps.marshaller.needHeader pk
        ({ ps with
            batchFileLinesByPK := mi.linesByPK
            batchFileSkipLines := mi.skipLines
            batchFile := some (r.2 ++ [Line.obj processedObject])
            eventsInBatch := ps.eventsInBatch + 1 }, none)
  else
    ({ ps with
        batchFile := some (r.2 ++ [Line.obj processedObject])
        eventsInBatch := ps.eventsInBatch + 1 }, none)

/-- `insert` (lines 895-903): direct insert into the tmp table inside the
transaction, after an uncached schema reconciliation. -/
def insert (ps0 : ReplacePartitionStream) (targetTable : Table) (o : Object) :
    ReplacePartitionStream × Option String :=
  let ps := ps0.adjustTables targetTable
  match ps.tmpTable with
  | none => (ps, none)
  | some tmp =>
      ({ ps with txOps := ps.txOps ++ [TxOp.ensureTable tmp, TxOp.insertRow tmp.name o ps.merge] },
        none)

/-- Modelled from the spec: `AbstractSQLStream.postConsume` (declared outside
`src/`) — on error record `errorRowIndex` and `lastError`; on success
increment `successfulRows`; always increment `processedRows` (§4.7 step 5). -/
def postConsume (ps : ReplacePartitionStream) (err : Option String) :
    ReplacePartitionStream × Option String :=
  match err with
  | some e =>
      ({ ps with state :=
          { (ps.state.setError e) with
            errorRowIndex := ps.state.processedRows
            processedRows := ps.state.processedRows + 1 } }, some e)
  | none =>
      ({ ps with state :=
          { ps.state with
            successfulRows := ps.state.successfulRows + 1
            processedRows := ps.state.processedRows + 1 } }, none)

/-- `Consume` (lines 52-72): stamp `__partition_id`, preprocess, then write
to the batch file or insert directly. -/
def consume (ps0 : ReplacePartitionStream) (object : Object) :
    ReplacePartitionStream × Option String :=
  let ps := ps0.init
  let object := aput PartitonIdKeyword ps.partitionId object
  let target := ps.tableForObject object
  let r :=
    if ps.batchFile.isSome then ps.writeToBatchFile target object
    else ps.insert target object
  r.1.postConsume r.2

/-- `clearPartition` (lines 116-136), acting directly on the database via the
non-transactional SQL adapter: if the destination exists it must carry the
`__partition_id` column (else fatal), and the partition's rows are deleted
with autocommit. -/
def clearPartition (ps : ReplacePartitionStream) (db : DB) :
    DB × Option String × List Effect :=
  match alookup ps.tableName db with
  | none => (db, none, [])
  | some tbl =>
      match alookup PartitonIdKeyword tbl.columns with
      | none =>
          (db, some ("couldn't start ReplacePartitionStream: destination table ["
            ++ ps.tableName ++ "] exist but it is not managed by ReplacePartitionStream: "
            ++ PartitonIdKeyword ++ " column is missing"), [])
      | some _ =>
          (aput ps.tableName
            { tbl with rows :=
                tbl.rows.filter (fun r => alookup PartitonIdKeyword r ≠ some ps.partitionId) }
            db,
           none,
           [Effect.deleteViaAdapter ps.tableName ps.partitionId])

/-- `flushBatchFile` (transactional variant, lines 694-826): create the tmp
table in the transaction; when the batch is non-empty, rewrite as needed and
load the working file into the tmp table.  The S3 staging route and I/O
faults are not modelled. -/
def flushBatchFile (ps : ReplacePartitionStream) :
    ReplacePartitionStream × Option String :=
  let ps :=
    match ps.tmpTable with
    | some t => { ps with txOps := ps.txOps ++ [TxOp.createTable t] }
    | none => ps
  let lines := ps.batchFile.getD []
  let cleanup := fun (s : ReplacePartitionStream) =>
    let s :=
      if s.merge then { s with batchFileLinesByPK := [], batchFileSkipLines := [] }
      else s
    { s with batchFile := none }
  if ps.eventsInBatch > 0 then
    let hdr := (ps.tmpTable.map Table.sortedColumnNames).getD []
    match rewriteWork ps.marshaller ps.targetMarshaller hdr ps.batchFileSkipLines lines with
    | .error e => (cleanup ps, some e)
    | .ok work =>
        match ps.tmpTable with
        | some t =>
            (cleanup { ps with txOps := ps.txOps ++ [TxOp.loadRows t.name (objectsOf work.1)] },
              none)
        | none => (cleanup ps, none)
  else (cleanup ps, none)

/-- The deferred epilogue of `Complete`: on error zero `successfulRows` and
roll back (lines 78-84), then `AbstractTransactionalSQLStream.postComplete`
(lines 664-692: drop tmp and commit on success, zero `successfulRows`, drop
tmp and roll back on error) and the final status assignment of
`AbstractSQLStream.postComplete` (modelled from the spec, §7: a failed
`Complete` yields `Failed`, a successful one `Completed`). -/
def finishComplete (ps : ReplacePartitionStream) (db : DB) (err : Option String)
    (tr : List Effect) :
    ReplacePartitionStream × DB × StreamState × Option String × List Effect :=
  match err with
  | some e =>
      let st := { (ps.state.setError e) with successfulRows := 0, status := .failed }
      ({ ps with batchFile := none, txOps := [], txOpen := false, state := st },
        db, st, some e, tr ++ [Effect.txRollback])
  | none =>
      let ops := ps.txOps ++
        (match ps.tmpTable with
         | some t => [TxOp.drop t.name]
         | none => [])
      let db := ops.foldl applyTxOp db
      let st := { ps.state with status := .completed }
      ({ ps with batchFile := none, txOps := [], txOpen := false, state := st },
        db, st, none, tr ++ [Effect.txCommit])

/-- `Complete` (lines 74-114): guard on Active; with no recorded error, clear
the partition via the non-transactional adapter first (even for an empty
stream), then — only when rows were accepted — flush the batch file, make the
destination descriptor carry the tmp columns, ensure the destination table
and copy tmp into it inside the transaction. -/
def complete (ps : ReplacePartitionStream) (db : DB) :
    ReplacePartitionStream × DB × StreamState × Option String × List Effect :=
  if ps.state.status ≠ .active then (ps, db, ps.state, some "stream is not active", [])
  else
    match ps.state.lastError with
    | some e => finishComplete ps db (some e) []
    | none =>
        let c := ps.clearPartition db
        match c.2.1 with
        | some e => finishComplete ps c.1 (some e) c.2.2
        | none =>
            if ps.state.successfulRows > 0 then
              let f :=
                if ps.batchFile.isSome then
                  let r := ps.flushBatchFile
                  (r.1, r.2, [Effect.flushLoad])
                else (ps, none, [])
              match f.2.1 with
              | some e => finishComplete f.1 c.1 (some e) (c.2.2 ++ f.2.2)
              | none =>
                  let ps := f.1
                  let ps :=
                    { ps with dstTable :=
                        (ps.dstTable.map (fun d : Table =>
                          { d with columns := ((ps.tmpTable.map Table.columns).getD d.columns) })) }
                  match ps.dstTable with
                  | none => finishComplete ps c.1 none (c.2.2 ++ f.2.2)
                  | some d =>
                      let e := ensureTableWithCaching c.1 d
                      let ps := { ps with dstTable := some e.2 }
                      match ps.tmpTable with
                      | none =>
                          finishComplete ps e.1 none (c.2.2 ++ f.2.2 ++ [Effect.ensureDst])
                      | some tmp =>
                          let ps := { ps with txOps := ps.txOps ++ [TxOp.copyTables e.2 tmp ps.merge] }
                          finishComplete ps e.1 none
                            (c.2.2 ++ f.2.2 ++ [Effect.ensureDst, Effect.copyTables])
            else finishComplete ps c.1 none c.2.2

/-- `Abort` (transactional variant, lines 939-955): guard on Active; drop the
tmp table, roll back, remove the batch file, status `Aborted`. -/
def abort (ps : ReplacePartitionStream) :
    ReplacePartitionStream × StreamState × Option String :=
  if ps.state.status ≠ .active then (ps, ps.state, some "stream is not active")
  else
    let ps := { ps with txOps := [], txOpen := false, batchFile := none }
    let ps := { ps with state := { ps.state with status := .aborted } }
    (ps, ps.state, none)

end ReplacePartitionStream

/-! ## Specification-side functions and concrete instances -/

/-- The index of the last occurrence of `p` in `xs`, if any. -/
def lastOcc : List String → String → Option Nat
  | [], _ => none
  | x :: xs, p =>
      match lastOcc xs p with
      | some i => some (i + 1)
      | none => if x = p then some 0 else none

/-- The lines of a file whose index is outside the skip set, in order. -/
def idxFilter (skip : List Nat) (lines : List Line) : List Line :=
  (lines.enum.filter (fun q => ¬ q.1 ∈ skip)).map Prod.snd

/-- Fold `Consume` over a list of objects (file-storage variant). -/
def AbstractFileStorageStream.consumeAll (ps : AbstractFileStorageStream)
    (os : List Object) : AbstractFileStorageStream :=
  os.foldl (fun s o => (s.consume o).1) ps

/-- Extract the value of a successful construction, with explicit default. -/
def exceptOk {α : Type} (d : α) : Except String α → α
  | .ok v => v
  | .error _ => d

/-- An NDJSON file adapter. -/
def ndjsonAdapter : FileAdapter := { format := "ndjson", compression := "none" }

/-- A CSV file adapter. -/
def csvAdapter : FileAdapter := { format := "csv", compression := "none" }

/-- Fallback file-storage stream (never used on the `.ok` paths below). -/
def fsDefault : AbstractFileStorageStream :=
  { id := "", fileAdapter := ndjsonAdapter, flatten := false, merge := false,
    pkColumns := [], timestampColumn := "", batchFile := none,
    marshaller := jsonMarshaller, targetMarshaller := jsonMarshaller,
    headerInited := false, eventsInBatch := 0, batchFileLinesByPK := [],
    batchFileSkipLines := [], csvHeader := [],
    state := { status := .active, processedRows := 0, successfulRows := 0,
               errorRowIndex := 0, lastError := none },
    inited := false }

/-- Fallback ReplacePartition stream (never used on the `.ok` paths below). -/
def rpDefault : ReplacePartitionStream :=
  { id := "", tableName := "", partitionId := "p", merge := false, pkColumns := [],
    useBatchFile := false, adapterFormat := "", adapterCompression := "",
    batchFile := none, marshaller := jsonMarshaller, targetMarshaller := jsonMarshaller,
    headerInited := false, eventsInBatch := 0, batchFileLinesByPK := [],
    batchFileSkipLines := [], tmpTable := none, dstTable := none,
    existingTable := { name := "", columns := [], pkFields := [], temporary := false },
    txOpen := false, txOps := [],
    state := { status := .active, processedRows := 0, successfulRows := 0,
               errorRowIndex := 0, lastError := none },
    inited := false }

/-- A plain (append, non-merge) file-storage stream. -/
def fsAppendStream : AbstractFileStorageStream :=
  exceptOk fsDefault (newAbstractFileStorageStream "fs-append" ndjsonAdapter false [] "")

/-- A merge file-storage stream with primary key `id`. -/
def fsMergeStream : AbstractFileStorageStream :=
  exceptOk fsDefault (newAbstractFileStorageStream "fs-merge" ndjsonAdapter true ["id"] "")

/-- The merge stream after one accepted object and one object that lacks the
primary key (so `lastError` is set while `successfulRows = 1`). -/
def fsCexRun : AbstractFileStorageStream :=
  ((fsMergeStream.consume [("id", "1")]).1.consume [("v", "x")]).1

/-- A fresh ReplacePartition stream for partition `2024-01` of table `dst`. -/
def rpFresh : ReplacePartitionStream :=
  exceptOk rpDefault
    (newReplacePartitionStream "rp1" "dst" "2024-01" false [] true "ndjson" "none")

/-- A fresh merge-mode ReplacePartition stream with primary key `id`. -/
def rpMergeFresh : ReplacePartitionStream :=
  exceptOk rpDefault
    (newReplacePartitionStream "rpm" "dst" "2024-01" true ["id"] true "ndjson" "none")

/-- The fresh ReplacePartition stream with a recorded consume error. -/
def rpErrStream : ReplacePartitionStream :=
  { rpFresh with state := { rpFresh.state with lastError := some "boom" } }

/-- A destination table managed by ReplacePartition: two partitions. -/
def dbManaged : DB :=
  [("dst",
    { columns := [("x", "t"), (PartitonIdKeyword, "t")],
      rows := [[("x", "1"), (PartitonIdKeyword, "2024-01")],
               [("x", "2"), (PartitonIdKeyword, "2023-12")]] })]

/-- A destination table that exists but lacks the `__partition_id` column. -/
def dbUnmanaged : DB :=
  [("dst", { columns := [("x", "t")], rows := [[("x", "1")]] })]

/-- A CSV-target merge file-storage stream after two accepted objects with
the same primary key. -/
def fsCsvTwo : AbstractFileStorageStream :=
  (((exceptOk fsDefault (newAbstractFileStorageStream "w5" csvAdapter true ["id"] "")).consume
      [("id", "1"), ("v", "a")]).1.consume [("id", "1"), ("v", "b")]).1

/-- The fresh ReplacePartition stream after one accepted object. -/
def rpOne : ReplacePartitionStream := (rpFresh.consume [("x", "5")]).1

/-- The tmp table of `rpOne`. -/
def rpOneTmp : Table :=
  { name := "jitsu_tmp_a1b2c3d4"
    columns := [("x", "inferred"), ("__partition_id", "inferred")]
    pkFields := []
    temporary := true }

/-- A transactional operation that never recreates or drops the table `n`.
Row-level operations are always safe for column preservation. -/
def TxOp.safeFor (n : String) : TxOp → Prop
  | .createTable t => t.name ≠ n
  | .drop m => m ≠ n
  | _ => True

/-- Column `c` is present in the schema of table `n` of the database. -/
def colPresent (db : DB) (n c : String) : Bool :=
  match alookup n db with
  | some tbl => (alookup c tbl.columns).isSome
  | none => false

/-! ## Auxiliary lemmas on the map/set model -/

theorem alookup_aput {β : Type} (k q : String) (v : β) (l : List (String × β)) :
    alookup q (aput k v l) = if k = q then some v else alookup q l := by
  induction l with
  | nil => by_cases h : k = q <;> simp [aput, alookup, h]
  | cons kv t ih =>
      by_cases h : kv.1 = k
      · by_cases h2 : k = q
        · simp [aput, alookup, h, h2]
        · have h3 : ¬ kv.1 = q := by rw [h]; exact h2
          simp [aput, alookup, h, h2, h3]
      · by_cases h2 : kv.1 = q
        · have h3 : ¬ k = q := by
            intro hk
            exact h (by rw [hk, h2])
          have h4 : ¬ q = k := fun hq => h3 hq.symm
          simp [aput, alookup, h, h2, h3, h4]
        · simp [aput, alookup, h, h2, ih]

theorem mem_sput (m n : Nat) (s : List Nat) : m ∈ sput n s ↔ m = n ∨ m ∈ s := by
  unfold sput
  split
  · constructor
    · exact fun h => Or.inr h
    · rintro (rfl | h) <;> [assumption; assumption]
  · simp [List.mem_append, or_comm]

theorem alookup_mapPutAll_isSome {β : Type} (src dst : List (String × β)) (k : String) :
    (alookup k (mapPutAll src dst)).isSome
      = ((alookup k src).isSome || (alookup k dst).isSome) := by
  induction src generalizing dst with
  | nil => simp [mapPutAll, alookup]
  | cons kv t ih =>
      show (alookup k (mapPutAll t (aput kv.1 kv.2 dst))).isSome = _
      rw [ih, alookup_aput]
      by_cases h : kv.1 = k <;> simp [alookup, h]

theorem objectsOf_append (a b : List Line) :
    objectsOf (a ++ b) = objectsOf a ++ objectsOf b := by
  simp [objectsOf, List.filterMap_append]

theorem objectsOf_marshallerInit (nh hi : Bool) (hdr : List String) (file : List Line) :
    objectsOf (marshallerInit nh hi hdr file).2 = objectsOf file := by
  unfold marshallerInit
  split
  · rfl
  · split
    · simp [objectsOf_append, objectsOf, Line.objOf]
    · rfl

/-! ## State-preservation lemmas for the stream operations -/

theorem fsInit_state (ps : AbstractFileStorageStream) :
    ps.init.state = ps.state := by
  unfold AbstractFileStorageStream.init
  split
  · rfl
  · split <;> rfl

theorem fsInit_eventsInBatch (ps : AbstractFileStorageStream) :
    ps.init.eventsInBatch = ps.eventsInBatch := by
  unfold AbstractFileStorageStream.init
  split
  · rfl
  · split <;> rfl

theorem fsWriteToBatchFile_state (ps : AbstractFileStorageStream) (o : Object) :
    (ps.writeToBatchFile o).1.state = ps.state := by
  simp only [AbstractFileStorageStream.writeToBatchFile]
  split
  · split <;> rfl
  · rfl

theorem fsPostConsume_status (ps : AbstractFileStorageStream) (er : Option String) :
    (ps.postConsume er).1.state.status = ps.state.status := by
  cases er <;> rfl

theorem fsConsume_status (ps : AbstractFileStorageStream) (o : Object) :
    (ps.consume o).1.state.status = ps.state.status := by
  unfold AbstractFileStorageStream.consume
  rw [fsPostConsume_status]
  rw [fsWriteToBatchFile_state]
  split <;> rw [fsInit_state]

theorem fsFlushBatchFile_state (ps : AbstractFileStorageStream) :
    ps.flushBatchFile.1.state = ps.state := by
  simp only [AbstractFileStorageStream.flushBatchFile, AbstractFileStorageStream.flushCleanup]
  split
  · split <;> split <;> rfl
  · split <;> rfl

theorem fsPostComplete_status (ps : AbstractFileStorageStream) (er : Option String) :
    (ps.postComplete er).2.1.status
      = (match er with | some _ => Status.failed | none => Status.completed) := by
  cases er <;> rfl

theorem fsPostComplete_successfulRows (ps : AbstractFileStorageStream) (er : Option String) :
    (ps.postComplete er).2.1.successfulRows = ps.state.successfulRows := by
  cases er <;> rfl

theorem fsPostComplete_err (ps : AbstractFileStorageStream) (er : Option String) :
    (ps.postComplete er).2.2 = er := by
  cases er <;> rfl

/-- When the guard passes, `Complete` of a file-storage stream is
`postComplete` of a stream carrying the same run state. -/
theorem fsComplete_shape (ps : AbstractFileStorageStream)
    (h : ps.state.status = .active) :
    ∃ (ps1 : AbstractFileStorageStream) (er : Option String) (up : Option Uploaded),
      ps1.state = ps.state ∧
      ps.complete = ((ps1.postComplete er).1, (ps1.postComplete er).2.1,
        (ps1.postComplete er).2.2, up) := by
  simp only [AbstractFileStorageStream.complete]
  rw [if_neg (by simp [h])]
  cases hle : ps.state.lastError with
  | some e => exact ⟨ps, some e, none, rfl, by simp [hle]⟩
  | none =>
      by_cases hsr : ps.state.successfulRows > 0
      · cases hbf : ps.batchFile.isSome
        · exact ⟨ps, none, none, rfl, by simp [hle, hsr, hbf]⟩
        · exact ⟨ps.flushBatchFile.1, ps.flushBatchFile.2.2.1, ps.flushBatchFile.2.1,
            fsFlushBatchFile_state ps, by simp [hle, hsr, hbf]⟩
      · exact ⟨ps, none, none, rfl, by simp [hle, hsr]⟩

theorem rpFinish_err (ps : ReplacePartitionStream) (db : DB) (er : Option String)
    (tr : List Effect) :
    (ReplacePartitionStream.finishComplete ps db er tr).2.2.2.1 = er := by
  cases er <;> rfl

theorem rpFinish_status_some (ps : ReplacePartitionStream) (db : DB) (e : String)
    (tr : List Effect) :
    (ReplacePartitionStream.finishComplete ps db (some e) tr).2.2.1.status = .failed := rfl

theorem rpFinish_sr_some (ps : ReplacePartitionStream) (db : DB) (e : String)
    (tr : List Effect) :
    (ReplacePartitionStream.finishComplete ps db (some e) tr).2.2.1.successfulRows = 0 := rfl

theorem rpFinish_status_none (ps : ReplacePartitionStream) (db : DB) (tr : List Effect) :
    (ReplacePartitionStream.finishComplete ps db none tr).2.2.1.status = .completed := rfl

theorem rpFinish_db_some (ps : ReplacePartitionStream) (db : DB) (e : String)
    (tr : List Effect) :
    (ReplacePartitionStream.finishComplete ps db (some e) tr).2.1 = db := rfl

theorem rpFinish_trace_some (ps : ReplacePartitionStream) (db : DB) (e : String)
    (tr : List Effect) :
    (ReplacePartitionStream.finishComplete ps db (some e) tr).2.2.2.2
      = tr ++ [Effect.txRollback] := rfl

theorem rpFinish_trace_none (ps : ReplacePartitionStream) (db : DB) (tr : List Effect) :
    (ReplacePartitionStream.finishComplete ps db none tr).2.2.2.2
      = tr ++ [Effect.txCommit] := rfl

/-- When the guard passes, `Complete` of a ReplacePartition stream always
terminates through `finishComplete` (the deferred rollback-or-commit
epilogue). -/
theorem rpComplete_shape (ps : ReplacePartitionStream) (db : DB)
    (h : ps.state.status = .active) :
    ∃ (ps1 : ReplacePartitionStream) (db1 : DB) (er : Option String) (tr : List Effect),
      ps.complete db = ReplacePartitionStream.finishComplete ps1 db1 er tr := by
  simp only [ReplacePartitionStream.complete]
  rw [if_neg (by simp [h])]
  repeat' split
  all_goals exact ⟨_, _, _, _, rfl⟩

theorem rpInit_state (ps : ReplacePartitionStream) : ps.init.state = ps.state := by
  simp only [ReplacePartitionStream.init]
  repeat' split
  all_goals rfl

theorem rpAdjustTables_state (ps : ReplacePartitionStream) (t : Table) :
    (ps.adjustTables t).state = ps.state := by
  simp only [ReplacePartitionStream.adjustTables]
  repeat' split
  all_goals rfl

theorem rpWriteToBatchFile_state (ps : ReplacePartitionStream) (t : Table) (o : Object) :
    (ps.writeToBatchFile t o).1.state = ps.state := by
  simp only [ReplacePartitionStream.writeToBatchFile]
  repeat' split
  all_goals simp [rpAdjustTables_state]

theorem rpInsert_state (ps : ReplacePartitionStream) (t : Table) (o : Object) :
    (ps.insert t o).1.state = ps.state := by
  simp only [ReplacePartitionStream.insert]
  repeat' split
  all_goals simp [rpAdjustTables_state]

theorem rpPostConsume_status (ps : ReplacePartitionStream) (er : Option String) :
    (ps.postConsume er).1.state.status = ps.state.status := by
  cases er <;> rfl

theorem rpConsume_status (ps : ReplacePartitionStream) (o : Object) :
    (ps.consume o).1.state.status = ps.state.status := by
  simp only [ReplacePartitionStream.consume]
  rw [rpPostConsume_status]
  split
  · rw [rpWriteToBatchFile_state, rpInit_state]
  · rw [rpInsert_state, rpInit_state]

theorem fsPostComplete_st_eq (ps : AbstractFileStorageStream) (er : Option String) :
    (ps.postComplete er).1.state = (ps.postComplete er).2.1 := by
  cases er <;> rfl

theorem rpFinish_st_eq (ps : ReplacePartitionStream) (db : DB) (er : Option String)
    (tr : List Effect) :
    (ReplacePartitionStream.finishComplete ps db er tr).1.state
      = (ReplacePartitionStream.finishComplete ps db er tr).2.2.1 := by
  cases er <;> rfl

theorem fsInit_merge (ps : AbstractFileStorageStream) : ps.init.merge = ps.merge := by
  simp only [AbstractFileStorageStream.init]
  repeat' split
  all_goals rfl

theorem fsInit_pkColumns (ps : AbstractFileStorageStream) :
    ps.init.pkColumns = ps.pkColumns := by
  simp only [AbstractFileStorageStream.init]
  repeat' split
  all_goals rfl

theorem fsPreprocess_id (ps : AbstractFileStorageStream) (o : Object) :
    ps.preprocess o = o := by
  unfold AbstractFileStorageStream.preprocess
  split <;> rfl

theorem fsPostConsume_nonstate (ps : AbstractFileStorageStream) (er : Option String) :
    (ps.postConsume er).1.eventsInBatch = ps.eventsInBatch
    ∧ (ps.postConsume er).1.batchFile = ps.batchFile := by
  cases er <;> exact ⟨rfl, rfl⟩

/-- A merge stream whose single PK column is absent from the object: the
write is rejected before anything is marshalled. -/
theorem fsWrite_pk_error_proj (ps : AbstractFileStorageStream) (c : String) (o : Object)
    (hm : ps.merge = true) (hpk : ps.pkColumns = [c]) (ho : alookup c o = none) :
    (ps.writeToBatchFile o).2 = some ("primary key [" ++ c ++ "] is not found in the object")
    ∧ (ps.writeToBatchFile o).1.eventsInBatch = ps.eventsInBatch
    ∧ (ps.writeToBatchFile o).1.state = ps.state
    ∧ objectsOf ((ps.writeToBatchFile o).1.batchFile.getD [])
        = objectsOf (ps.batchFile.getD []) := by
  refine ⟨?_, ?_, ?_, ?_⟩ <;>
    simp only [AbstractFileStorageStream.writeToBatchFile,
      AbstractFileStorageStream.getPKValue, hm, hpk, ho, if_true,
      Option.getD_some, objectsOf_marshallerInit]

theorem alookup_aremove_ne {β : Type} (k q : String) (l : List (String × β))
    (h : k ≠ q) : alookup q (aremove k l) = alookup q l := by
  induction l with
  | nil => rfl
  | cons kv t ih =>
      by_cases hk : kv.1 = k
      · simp [aremove, alookup, hk, h]
      · by_cases hq : kv.1 = q
        · have h2 : ¬ q = k := fun hh => h hh.symm
          simp [aremove, alookup, hk, hq, h2]
        · simp [aremove, alookup, hk, hq, ih]

theorem colPresent_aput_same_columns (db : DB) (n c m : String) (tbl tbl2 : DBTable)
    (hm : alookup m db = some tbl) (hcols : tbl2.columns = tbl.columns)
    (h : colPresent db n c = true) :
    colPresent (aput m tbl2 db) n c = true := by
  unfold colPresent at h ⊢
  rw [alookup_aput]
  by_cases hn : m = n
  · subst hn
    rw [if_pos rfl]
    show (alookup c tbl2.columns).isSome = true
    rw [hcols]
    rw [hm] at h
    exact h
  · rw [if_neg hn]
    exact h

theorem colPresent_aput_ne (db : DB) (n c m : String) (tbl2 : DBTable)
    (hn : ¬ m = n) (h : colPresent db n c = true) :
    colPresent (aput m tbl2 db) n c = true := by
  unfold colPresent at h ⊢
  rw [alookup_aput, if_neg hn]
  exact h

/-- Column presence at table `n` survives any transactional operation that is
safe for `n`: schema changes are additive, row operations leave columns
alone, and create/drop touch only other tables. -/
theorem applyTxOp_pres (op : TxOp) (n c : String) (hsafe : op.safeFor n) (db : DB)
    (h : colPresent db n c = true) :
    colPresent (applyTxOp db op) n c = true := by
  cases op with
  | createTable t =>
      unfold colPresent at h ⊢
      simp only [applyTxOp]
      rw [alookup_aput, if_neg hsafe]
      exact h
  | ensureTable t =>
      cases hnd : alookup t.name db with
      | none =>
          unfold colPresent at h ⊢
          simp only [applyTxOp, hnd]
          rw [alookup_aput]
          by_cases hn : t.name = n
          · rw [hn] at hnd
            rw [hnd] at h
            exact absurd h (by simp)
          · rw [if_neg hn]
            exact h
      | some ex =>
          by_cases hn : t.name = n
          · subst hn
            unfold colPresent at h ⊢
            simp only [applyTxOp, hnd]
            rw [alookup_aput, if_pos rfl]
            rw [hnd] at h
            have hex : (alookup c ex.columns).isSome = true := h
            show (alookup c (mapPutAll t.columns ex.columns)).isSome = true
            rw [alookup_mapPutAll_isSome, hex, Bool.or_true]
          · simp only [applyTxOp, hnd]
            exact colPresent_aput_ne db n c t.name _ hn h
  | insertRow m o merge =>
      cases hnd : alookup m db with
      | none =>
          simp only [applyTxOp, hnd]
          exact h
      | some ex =>
          simp only [applyTxOp, hnd]
          cases merge
          · simp only [Bool.false_eq_true, if_false]
            exact colPresent_aput_same_columns db n c m ex _ hnd rfl h
          · simp only [if_true]
            exact colPresent_aput_same_columns db n c m ex _ hnd rfl h
  | loadRows m rows =>
      cases hnd : alookup m db with
      | none =>
          simp only [applyTxOp, hnd]
          exact h
      | some ex =>
          simp only [applyTxOp, hnd]
          exact colPresent_aput_same_columns db n c m ex _ hnd rfl h
  | copyTables dst src merge =>
      cases hs : alookup src.name db with
      | none =>
          simp only [applyTxOp, hs]
          exact h
      | some s =>
          cases hd : alookup dst.name db with
          | none =>
              simp only [applyTxOp, hs, hd]
              exact h
          | some d =>
              simp only [applyTxOp, hs, hd]
              cases merge
              · simp only [Bool.false_eq_true, if_false]
                exact colPresent_aput_same_columns db n c dst.name d _ hd rfl h
              · simp only [if_true]
                exact colPresent_aput_same_columns db n c dst.name d _ hd rfl h
  | drop m =>
      unfold colPresent at h ⊢
      simp only [applyTxOp]
      rw [alookup_aremove_ne m n _ hsafe]
      exact h

theorem foldl_applyTxOp_pres (ops : List TxOp) (n c : String)
    (hsafe : ∀ op ∈ ops, op.safeFor n) :
    ∀ db, colPresent db n c = true → colPresent (ops.foldl applyTxOp db) n c = true := by
  induction ops with
  | nil => exact fun db h => h
  | cons op t ih =>
      intro db h
      exact ih (fun o ho => hsafe o (List.mem_cons_of_mem op ho)) (applyTxOp db op)
        (applyTxOp_pres op n c (hsafe op (List.mem_cons_self op t)) db h)

/-- `EnsureTableWithCaching` preserves column presence at every table. -/
theorem ensure_pres (db : DB) (t : Table) (n c : String)
    (h : colPresent db n c = true) :
    colPresent (ensureTableWithCaching db t).1 n c = true := by
  cases hnd : alookup t.name db with
  | none =>
      unfold colPresent at h ⊢
      simp only [ensureTableWithCaching, hnd]
      rw [alookup_aput]
      by_cases hn : t.name = n
      · rw [hn] at hnd
        rw [hnd] at h
        exact absurd h (by simp)
      · rw [if_neg hn]
        exact h
  | some ex =>
      by_cases hn : t.name = n
      · subst hn
        unfold colPresent at h ⊢
        simp only [ensureTableWithCaching, hnd]
        rw [alookup_aput, if_pos rfl]
        rw [hnd] at h
        have hex : (alookup c ex.columns).isSome = true := h
        show (alookup c (mapPutAll t.columns ex.columns)).isSome = true
        rw [alookup_mapPutAll_isSome, hex, Bool.or_true]
      · simp only [ensureTableWithCaching, hnd]
        exact colPresent_aput_ne db n c t.name _ hn h

/-- `clearPartition` filters rows only: column presence is preserved. -/
theorem clearPartition_pres (rp : ReplacePartitionStream) (db : DB) (n c : String)
    (h : colPresent db n c = true) :
    colPresent (rp.clearPartition db).1 n c = true := by
  cases hd : alookup rp.tableName db with
  | none =>
      simp only [ReplacePartitionStream.clearPartition, hd]
      exact h
  | some d =>
      cases hcol : alookup PartitonIdKeyword d.columns with
      | none =>
          simp only [ReplacePartitionStream.clearPartition, hd, hcol]
          exact h
      | some ty =>
          simp only [ReplacePartitionStream.clearPartition, hd, hcol]
          exact colPresent_aput_same_columns db n c rp.tableName d _ hd rfl h

theorem rpInit_tables (ps : ReplacePartitionStream) :
    ps.init.dstTable = ps.dstTable ∧ ps.init.tmpTable = ps.tmpTable := by
  simp only [ReplacePartitionStream.init]
  repeat' split
  all_goals exact ⟨rfl, rfl⟩

theorem rpPostConsume_tables (ps : ReplacePartitionStream) (er : Option String) :
    (ps.postConsume er).1.dstTable = ps.dstTable
    ∧ (ps.postConsume er).1.tmpTable = ps.tmpTable := by
  cases er <;> exact ⟨rfl, rfl⟩

theorem rpWrite_tables (ps : ReplacePartitionStream) (t : Table) (o : Object) :
    (ps.writeToBatchFile t o).1.dstTable = (ps.adjustTables t).dstTable
    ∧ (ps.writeToBatchFile t o).1.tmpTable = (ps.adjustTables t).tmpTable := by
  simp only [ReplacePartitionStream.writeToBatchFile]
  repeat' split
  all_goals exact ⟨rfl, rfl⟩

theorem rpInsert_tables (ps : ReplacePartitionStream) (t : Table) (o : Object) :
    (ps.insert t o).1.dstTable = (ps.adjustTables t).dstTable
    ∧ (ps.insert t o).1.tmpTable = (ps.adjustTables t).tmpTable := by
  simp only [ReplacePartitionStream.insert]
  repeat' split
  all_goals exact ⟨rfl, rfl⟩

/-- `adjustTables` only widens the destination descriptor, and keeps the
destination descriptor's columns equal to the tmp table's. -/
theorem rpAdjust_mono (ps : ReplacePartitionStream) (t : Table)
    (hsync : ∀ d tmp, ps.dstTable = some d → ps.tmpTable = some tmp →
      d.columns = tmp.columns)
    (hnd : ps.tmpTable = none → ps.dstTable = none) :
    (∀ d dn c, ps.dstTable = some d → (ps.adjustTables t).dstTable = some dn →
        (alookup c d.columns).isSome = true → (alookup c dn.columns).isSome = true)
    ∧ (∀ d tmp, (ps.adjustTables t).dstTable = some d →
        (ps.adjustTables t).tmpTable = some tmp → d.columns = tmp.columns)
    ∧ ((ps.adjustTables t).tmpTable = none → (ps.adjustTables t).dstTable = none) := by
  cases htm : ps.tmpTable with
  | none =>
      have hdn : ps.dstTable = none := hnd htm
      refine ⟨?_, ?_, ?_⟩
      · intro d dn c hd
        rw [hdn] at hd
        cases hd
      · intro d tmp hd ht2
        simp only [ReplacePartitionStream.adjustTables, htm, hdn, Option.map_some] at hd ht2
        cases hd
        cases ht2
        rfl
      · intro ht2
        simp only [ReplacePartitionStream.adjustTables, htm, hdn] at ht2
        simp at ht2
  | some tmp0 =>
      refine ⟨?_, ?_, ?_⟩
      · intro d dn c hd hdn2 hc
        simp only [ReplacePartitionStream.adjustTables, htm, hd, Option.map_some] at hdn2
        cases hdn2
        show (alookup c (ReplacePartitionStream.adjustTableColumnTypes tmp0.columns
          ps.existingTable.columns t.columns)).isSome = true
        rw [ReplacePartitionStream.adjustTableColumnTypes, alookup_mapPutAll_isSome]
        rw [hsync d tmp0 hd htm] at hc
        rw [hc, Bool.or_true]
      · intro d tmp hd ht2
        cases hdt : ps.dstTable with
        | none =>
            simp only [ReplacePartitionStream.adjustTables, htm, hdt, Option.map_none] at hd
            simp at hd
        | some d0 =>
            simp only [ReplacePartitionStream.adjustTables, htm, hdt, Option.map_some] at hd ht2
            cases hd
            cases ht2
            rfl
      · intro ht2
        simp only [ReplacePartitionStream.adjustTables, htm] at ht2
        simp at ht2

/-- `Consume` only widens the destination descriptor and preserves the
descriptor invariants. -/
theorem rpConsume_dst_mono (rp : ReplacePartitionStream) (o : Object)
    (hsync : ∀ d tmp, rp.dstTable = some d → rp.tmpTable = some tmp →
      d.columns = tmp.columns)
    (hnd : rp.tmpTable = none → rp.dstTable = none) :
    (∀ d dn c, rp.dstTable = some d → (rp.consume o).1.dstTable = some dn →
        (alookup c d.columns).isSome = true → (alookup c dn.columns).isSome = true)
    ∧ (∀ d tmp, (rp.consume o).1.dstTable = some d →
        (rp.consume o).1.tmpTable = some tmp → d.columns = tmp.columns)
    ∧ ((rp.consume o).1.tmpTable = none → (rp.consume o).1.dstTable = none) := by
  obtain ⟨hi1, hi2⟩ := rpInit_tables rp
  have hsync2 : ∀ d tmp, rp.init.dstTable = some d → rp.init.tmpTable = some tmp →
      d.columns = tmp.columns := by
    rw [hi1, hi2]; exact hsync
  have hnd2 : rp.init.tmpTable = none → rp.init.dstTable = none := by
    rw [hi1, hi2]; exact hnd
  simp only [ReplacePartitionStream.consume]
  split
  case isTrue hbf =>
    obtain ⟨hw1, hw2⟩ := rpWrite_tables rp.init
      (rp.init.tableForObject (aput PartitonIdKeyword rp.init.partitionId o))
      (aput PartitonIdKeyword rp.init.partitionId o)
    obtain ⟨ha1, ha2, ha3⟩ := rpAdjust_mono rp.init
      (rp.init.tableForObject (aput PartitonIdKeyword rp.init.partitionId o)) hsync2 hnd2
    obtain ⟨hp1, hp2⟩ := rpPostConsume_tables _ _
    refine ⟨?_, ?_, ?_⟩
    · intro d dn c hd hdn hc
      rw [hp1, hw1] at hdn
      rw [← hi1] at hd
      exact ha1 d dn c hd hdn hc
    · intro d tmp hd ht2
      rw [hp1, hw1] at hd
      rw [hp2, hw2] at ht2
      exact ha2 d tmp hd ht2
    · intro ht2
      rw [hp2, hw2] at ht2
      rw [hp1, hw1]
      exact ha3 ht2
  case isFalse hbf =>
    obtain ⟨hw1, hw2⟩ := rpInsert_tables rp.init
      (rp.init.tableForObject (aput PartitonIdKeyword rp.init.partitionId o))
      (aput PartitonIdKeyword rp.init.partitionId o)
    obtain ⟨ha1, ha2, ha3⟩ := rpAdjust_mono rp.init
      (rp.init.tableForObject (aput PartitonIdKeyword rp.init.partitionId o)) hsync2 hnd2
    obtain ⟨hp1, hp2⟩ := rpPostConsume_tables _ _
    refine ⟨?_, ?_, ?_⟩
    · intro d dn c hd hdn hc
      rw [hp1, hw1] at hdn
      rw [← hi1] at hd
      exact ha1 d dn c hd hdn hc
    · intro d tmp hd ht2
      rw [hp1, hw1] at hd
      rw [hp2, hw2] at ht2
      exact ha2 d tmp hd ht2
    · intro ht2
      rw [hp2, hw2] at ht2
      rw [hp1, hw1]
      exact ha3 ht2

theorem rpFlush_tmpTable (ps : ReplacePartitionStream) :
    ps.flushBatchFile.1.tmpTable = ps.tmpTable := by
  simp only [ReplacePartitionStream.flushBatchFile]
  repeat' split
  all_goals rfl

/-- The transactional operations added by the SQL `flushBatchFile`: a
`createTable` of the tmp table and possibly a `loadRows` into it. -/
theorem rpFlush_txOps_cases (ps : ReplacePartitionStream) :
    ps.flushBatchFile.1.txOps = ps.txOps
    ∨ (∃ t, ps.tmpTable = some t
        ∧ (ps.flushBatchFile.1.txOps = ps.txOps ++ [TxOp.createTable t]
           ∨ ∃ rows, ps.flushBatchFile.1.txOps
               = (ps.txOps ++ [TxOp.createTable t]) ++ [TxOp.loadRows t.name rows])) := by
  cases htm : ps.tmpTable with
  | none =>
      left
      simp only [ReplacePartitionStream.flushBatchFile, htm]
      repeat' split
      all_goals rfl
  | some t =>
      right
      refine ⟨t, rfl, ?_⟩
      simp only [ReplacePartitionStream.flushBatchFile, htm]
      repeat' split
      all_goals first
        | exact Or.inl rfl
        | exact Or.inr ⟨_, rfl⟩

/-- The deferred epilogue preserves destination columns when the buffered
operations are safe and the tmp table is not the destination. -/
theorem rpFinish_db_pres (ps : ReplacePartitionStream) (db : DB) (er : Option String)
    (tr : List Effect) (n c : String)
    (hops : ∀ op ∈ ps.txOps, op.safeFor n)
    (htmp : ∀ tmp, ps.tmpTable = some tmp → tmp.name ≠ n)
    (h : colPresent db n c = true) :
    colPresent (ReplacePartitionStream.finishComplete ps db er tr).2.1 n c = true := by
  cases er with
  | some e => exact h
  | none =>
      show colPresent ((ps.txOps ++ _).foldl applyTxOp db) n c = true
      refine foldl_applyTxOp_pres _ n c ?_ db h
      intro op hop
      rcases List.mem_append.mp hop with h2 | h2
      · exact hops op h2
      · cases htm : ps.tmpTable with
        | none =>
            rw [htm] at h2
            cases h2
        | some t =>
            rw [htm] at h2
            have he : op = TxOp.drop t.name := by simpa using h2
            subst he
            exact htmp t htm

/-- `Complete` of a ReplacePartition stream never removes a column from the
destination table in the database. -/
theorem safe_append_copy (ops : List TxOp) (n : String) (d s : Table) (m : Bool)
    (h : ∀ op ∈ ops, op.safeFor n) :
    ∀ op ∈ ops ++ [TxOp.copyTables d s m], op.safeFor n := by
  intro op hop
  rcases List.mem_append.mp hop with h2 | h2
  · exact h op h2
  · have he : op = TxOp.copyTables d s m := by simpa using h2
    subst he
    trivial

/-- `Complete` of a ReplacePartition stream never removes a column from the
destination table in the database. -/
theorem rpComplete_dst_columns_pres (rp : ReplacePartitionStream) (db : DB) (c : String)
    (htmp : ∀ tmp, rp.tmpTable = some tmp → tmp.name ≠ rp.tableName)
    (hops : ∀ op ∈ rp.txOps, op.safeFor rp.tableName)
    (h : colPresent db rp.tableName c = true) :
    colPresent (rp.complete db).2.1 rp.tableName c = true := by
  by_cases hs : rp.state.status = .active
  case neg =>
    simp only [ReplacePartitionStream.complete]
    rw [if_pos hs]
    exact h
  case pos =>
    simp only [ReplacePartitionStream.complete]
    rw [if_neg (by simp [hs])]
    have hclear : colPresent (rp.clearPartition db).1 rp.tableName c = true :=
      clearPartition_pres rp db rp.tableName c h
    have hens := fun (d : Table) =>
      ensure_pres (rp.clearPartition db).1 d rp.tableName c hclear
    have hsafe2 : ∀ op ∈ rp.flushBatchFile.1.txOps, op.safeFor rp.tableName := by
      rcases rpFlush_txOps_cases rp with hq | ⟨t, htm, hq⟩
      · rw [hq]; exact hops
      · rcases hq with hq | ⟨rows, hq⟩ <;> rw [hq] <;> intro op hop
        · rcases List.mem_append.mp hop with h2 | h2
          · exact hops op h2
          · have he : op = TxOp.createTable t := by simpa using h2
            subst he
            exact htmp t htm
        · rcases List.mem_append.mp hop with h2 | h2
          · rcases List.mem_append.mp h2 with h3 | h3
            · exact hops op h3
            · have he : op = TxOp.createTable t := by simpa using h3
              subst he
              exact htmp t htm
          · have he : op = TxOp.loadRows t.name rows := by simpa using h2
            subst he
            trivial
    have htmp2 : ∀ tmp, rp.flushBatchFile.1.tmpTable = some tmp →
        tmp.name ≠ rp.tableName := by
      intro tmp2 h2
      rw [rpFlush_tmpTable] at h2
      exact htmp tmp2 h2
    cases hle : rp.state.lastError with
    | some e => exact rpFinish_db_pres rp db (some e) [] rp.tableName c hops htmp h
    | none =>
        cases hce : (rp.clearPartition db).2.1 with
        | some e =>
            exact rpFinish_db_pres rp (rp.clearPartition db).1 (some e) _ rp.tableName c
              hops htmp hclear
        | none =>
            by_cases hsr : rp.state.successfulRows > 0
            case neg =>
              simp only [if_neg hsr]
              exact rpFinish_db_pres rp (rp.clearPartition db).1 none _ rp.tableName c
                hops htmp hclear
            case pos =>
              simp only [if_pos hsr]
              repeat' split
              all_goals first
                | exact rpFinish_db_pres _ _ _ _ rp.tableName c hops htmp hclear
                | exact rpFinish_db_pres _ _ _ _ rp.tableName c hsafe2 htmp2 hclear
                | exact rpFinish_db_pres _ _ _ _ rp.tableName c hops htmp (hens _)
                | exact rpFinish_db_pres _ _ _ _ rp.tableName c hsafe2 htmp2 (hens _)
                | exact rpFinish_db_pres _ _ _ _ rp.tableName c
                    (safe_append_copy _ _ _ _ _ hops) htmp (hens _)
                | exact rpFinish_db_pres _ _ _ _ rp.tableName c
                    (safe_append_copy _ _ _ _ _ hsafe2) htmp2 (hens _)


/-- C4: the destination schema is only ever mutated additively.  (i) each
`Consume` only widens the stream's destination descriptor, keeping it equal
to the tmp-table descriptor; (ii) `EnsureTableWithCaching` never drops a
column of the destination table; (iii) `Complete` never removes a column
from the destination table in the database. -/
theorem C4_schema_only_widens
    (rp : ReplacePartitionStream) (o : Object)
    (hsync : ∀ d tmp, rp.dstTable = some d → rp.tmpTable = some tmp →
      d.columns = tmp.columns)
    (hnd : rp.tmpTable = none → rp.dstTable = none)
    (db0 : DB) (t0 : Table) (c0 : String)
    (rp2 : ReplacePartitionStream) (db2 : DB) (c2 : String)
    (h2tmp : ∀ tmp, rp2.tmpTable = some tmp → tmp.name ≠ rp2.tableName)
    (h2ops : ∀ op ∈ rp2.txOps, op.safeFor rp2.tableName) :
    (∀ d dn c, rp.dstTable = some d → (rp.consume o).1.dstTable = some dn →
        (alookup c d.columns).isSome = true → (alookup c dn.columns).isSome = true)
    ∧ (∀ d tmp, (rp.consume o).1.dstTable = some d →
        (rp.consume o).1.tmpTable = some tmp → d.columns = tmp.columns)
    ∧ ((rp.consume o).1.tmpTable = none → (rp.consume o).1.dstTable = none)
    ∧ (colPresent db0 t0.name c0 = true →
        colPresent (ensureTableWithCaching db0 t0).1 t0.name c0 = true)
    ∧ (colPresent db2 rp2.tableName c2 = true →
        colPresent (rp2.complete db2).2.1 rp2.tableName c2 = true) :=
  ⟨(rpConsume_dst_mono rp o hsync hnd).1,
   (rpConsume_dst_mono rp o hsync hnd).2.1,
   (rpConsume_dst_mono rp o hsync hnd).2.2,
   fun h => ensure_pres db0 t0 t0.name c0 h,
   fun h => rpComplete_dst_columns_pres rp2 db2 c2 h2tmp h2ops h⟩

theorem C4_schema_only_widens_witness :
    (∀ d dn c, rpFresh.dstTable = some d →
        (rpFresh.consume [("x", "1")]).1.dstTable = some dn →
        (alookup c d.columns).isSome = true → (alookup c dn.columns).isSome = true)
    ∧ (∀ d tmp, (rpFresh.consume [("x", "1")]).1.dstTable = some d →
        (rpFresh.consume [("x", "1")]).1.tmpTable = some tmp → d.columns = tmp.columns)
    ∧ ((rpFresh.consume [("x", "1")]).1.tmpTable = none →
        (rpFresh.consume [("x", "1")]).1.dstTable = none)
    ∧ (colPresent dbManaged "dst" "x" = true →
        colPresent (ensureTableWithCaching dbManaged
          { name := "dst", columns := [("y", "inferred")], pkFields := [],
            temporary := false }).1 "dst" "x" = true)
    ∧ (colPresent dbManaged rpFresh.tableName "x" = true →
        colPresent (rpFresh.complete dbManaged).2.1 rpFresh.tableName "x" = true) :=
  C4_schema_only_widens rpFresh [("x", "1")]
    (by intro d tmp hd htm; exact Option.noConfusion hd)
    (fun _ => rfl)
    dbManaged
    { name := "dst", columns := [("y", "inferred")], pkFields := [], temporary := false }
    "x" rpFresh dbManaged "x"
    (by intro tmp h2; exact Option.noConfusion h2)
    (by intro op hop; exact absurd hop (List.not_mem_nil op))

theorem scanKeep_enumFrom (skip : List Nat) (lines : List Line) :
    ∀ i : Nat, scanKeep skip i lines
      = ((List.enumFrom i lines).filter (fun q => ¬ q.1 ∈ skip)).map Prod.snd := by
  induction lines with
  | nil => intro i; rfl
  | cons l t ih =>
      intro i
      by_cases hm : i ∈ skip <;> simp [scanKeep, hm, ih (i + 1), List.enumFrom]

theorem idxFilter_scanKeep (skip : List Nat) (lines : List Line) :
    scanKeep skip 0 lines = idxFilter skip lines := by
  rw [idxFilter, scanKeep_enumFrom skip lines 0]
  rfl

theorem idxFilter_empty (lines : List Line) : idxFilter [] lines = lines := by
  unfold idxFilter
  have h : ∀ q : Nat × Line, (¬ q.1 ∈ ([] : List Nat)) = True := by
    intro q
    simp
  simp [List.filter_eq_self.mpr, List.enum_map_snd]

theorem scanConvert_ok (skip : List Nat) (lines : List Line) :
    ∀ i : Nat, (∀ l ∈ lines, (Line.objOf l).isSome = true) →
    scanConvert skip i lines = .ok (scanKeep skip i lines) := by
  induction lines with
  | nil => intro i _; rfl
  | cons l t ih =>
      intro i h
      have ht : ∀ l2 ∈ t, (Line.objOf l2).isSome = true :=
        fun l2 hl2 => h l2 (List.mem_cons_of_mem l hl2)
      by_cases hm : i ∈ skip
      · simp [scanConvert, scanKeep, hm, ih (i + 1) ht]
      · cases l with
        | obj o => simp [scanConvert, scanKeep, hm, ih (i + 1) ht, Except.map]
        | header cols =>
            have := h (Line.header cols) (List.mem_cons_self _ t)
            simp [Line.objOf] at this

/-- The shared rewrite logic, on a batch file of marshalled objects: the
output keeps exactly the lines whose index is outside the skip set (plus the
target header when converting), and a rewrite happens iff the skip set is
non-empty or the formats differ. -/
theorem rewriteWork_spec (m t : Marshaller) (hdr : List String) (skip : List Nat)
    (lines : List Line) (hobj : ∀ l ∈ lines, (Line.objOf l).isSome = true) :
    rewriteWork m t hdr skip lines
      = .ok (((if (!(Marshaller.equal t m)) && t.needHeader
              then [Line.header hdr] else []) ++ idxFilter skip lines),
          (!skip.isEmpty || !(Marshaller.equal t m))) := by
  unfold rewriteWork
  cases hc : Marshaller.equal t m with
  | true =>
      cases he : skip.isEmpty with
      | true =>
          have : skip = [] := List.isEmpty_iff.mp he
          subst this
          simp [idxFilter_empty]
      | false =>
          simp [idxFilter_scanKeep]
  | false =>
      rw [scanConvert_ok skip lines 0 hobj]
      simp [idxFilter_scanKeep, Except.map]

theorem objectsOf_headerPart (b : Bool) (hdr : List String) :
    objectsOf (if b then [Line.header hdr] else []) = [] := by
  cases b <;> rfl

/-- The file-storage flush on a non-empty batch of marshalled objects:
no error, the rewrite-happened flag is exactly "skip set non-empty or
formats differ", and the uploaded file holds the kept lines (plus the
target header when converting). -/
theorem fsFlush_spec (ps : AbstractFileStorageStream) (lines : List Line)
    (hb : ps.batchFile = some lines)
    (hobj : ∀ l ∈ lines, (Line.objOf l).isSome = true)
    (hev : 0 < ps.eventsInBatch) :
    ps.flushBatchFile.2.2.1 = none
    ∧ ps.flushBatchFile.2.2.2
        = (!ps.batchFileSkipLines.isEmpty
            || !(Marshaller.equal ps.targetMarshaller ps.marshaller))
    ∧ ps.flushBatchFile.2.1
        = some { format := (if !(Marshaller.equal ps.targetMarshaller ps.marshaller)
                   then ps.targetMarshaller.format else ps.marshaller.format),
                 lines := ((if (!(Marshaller.equal ps.targetMarshaller ps.marshaller))
                       && ps.targetMarshaller.needHeader
                   then [Line.header (List.insertionSort (fun a b => a ≤ b) ps.csvHeader)]
                   else []) ++ idxFilter ps.batchFileSkipLines lines) } := by
  simp only [AbstractFileStorageStream.flushBatchFile, hb, Option.getD_some]
  rw [if_pos hev]
  rw [rewriteWork_spec _ _ _ _ _ hobj]
  exact ⟨rfl, rfl, rfl⟩

/-- The transactional flush on a non-empty batch of marshalled objects:
no error, and the tmp table is created and loaded with exactly the kept
objects. -/
theorem rpFlush_spec (ps : ReplacePartitionStream) (t : Table) (lines : List Line)
    (htm : ps.tmpTable = some t) (hb : ps.batchFile = some lines)
    (hobj : ∀ l ∈ lines, (Line.objOf l).isSome = true)
    (hev : 0 < ps.eventsInBatch) :
    ps.flushBatchFile.2 = none
    ∧ ps.flushBatchFile.1.txOps
        = (ps.txOps ++ [TxOp.createTable t])
          ++ [TxOp.loadRows t.name
                (objectsOf (idxFilter ps.batchFileSkipLines lines))] := by
  simp only [ReplacePartitionStream.flushBatchFile, htm, hb, Option.getD_some]
  rw [if_pos hev]
  rw [rewriteWork_spec _ _ _ _ _ hobj]
  dsimp only
  refine ⟨rfl, ?_⟩
  split <;> simp [objectsOf_append] <;> (split <;> rfl)

/-- C5: the flush rewrites the batch file iff `skipLines` is non-empty or
the on-disk format differs from the target format, and the surviving content
is exactly the appended objects, in order, minus the skipped lines — for the
shared rewrite, the file-storage upload, and the transactional load. -/
theorem C5_flush_dedup_convert
    (m t : Marshaller) (hdr : List String) (skip : List Nat) (lines : List Line)
    (hobj : ∀ l ∈ lines, (Line.objOf l).isSome = true)
    (fs : AbstractFileStorageStream) (linesF : List Line)
    (hfb : fs.batchFile = some linesF)
    (hfobj : ∀ l ∈ linesF, (Line.objOf l).isSome = true)
    (hfev : 0 < fs.eventsInBatch)
    (rp : ReplacePartitionStream) (tt : Table) (linesR : List Line)
    (hrt : rp.tmpTable = some tt)
    (hrb : rp.batchFile = some linesR)
    (hrobj : ∀ l ∈ linesR, (Line.objOf l).isSome = true)
    (hrev : 0 < rp.eventsInBatch) :
    rewriteWork m t hdr skip lines
      = .ok (((if (!(Marshaller.equal t m)) && t.needHeader
              then [Line.header hdr] else []) ++ idxFilter skip lines),
          (!skip.isEmpty || !(Marshaller.equal t m)))
    ∧ fs.flushBatchFile.2.2.1 = none
    ∧ fs.flushBatchFile.2.2.2
        = (!fs.batchFileSkipLines.isEmpty
            || !(Marshaller.equal fs.targetMarshaller fs.marshaller))
    ∧ (∃ u, fs.flushBatchFile.2.1 = some u
        ∧ u.format = (if !(Marshaller.equal fs.targetMarshaller fs.marshaller)
            then fs.targetMarshaller.format else fs.marshaller.format)
        ∧ objectsOf u.lines = objectsOf (idxFilter fs.batchFileSkipLines linesF))
    ∧ rp.flushBatchFile.2 = none
    ∧ rp.flushBatchFile.1.txOps
        = (rp.txOps ++ [TxOp.createTable tt])
          ++ [TxOp.loadRows tt.name
                (objectsOf (idxFilter rp.batchFileSkipLines linesR))] := by
  obtain ⟨hf1, hf2, hf3⟩ := fsFlush_spec fs linesF hfb hfobj hfev
  obtain ⟨hr1, hr2⟩ := rpFlush_spec rp tt linesR hrt hrb hrobj hrev
  refine ⟨rewriteWork_spec m t hdr skip lines hobj, hf1, hf2, ?_, hr1, hr2⟩
  refine ⟨_, hf3, rfl, ?_⟩
  rw [objectsOf_append, objectsOf_headerPart, List.nil_append]

theorem C5_flush_dedup_convert_witness :
    rewriteWork jsonMarshaller { format := "csv", compression := "none" } ["id", "v"] [0]
        [Line.obj [("id", "1")], Line.obj [("id", "2")]]
      = .ok (((if (!(Marshaller.equal { format := "csv", compression := "none" } jsonMarshaller))
              && Marshaller.needHeader { format := "csv", compression := "none" }
              then [Line.header ["id", "v"]] else [])
            ++ idxFilter [0] [Line.obj [("id", "1")], Line.obj [("id", "2")]]),
          (!([0] : List Nat).isEmpty
            || !(Marshaller.equal { format := "csv", compression := "none" } jsonMarshaller)))
    ∧ fsCsvTwo.flushBatchFile.2.2.1 = none
    ∧ fsCsvTwo.flushBatchFile.2.2.2
        = (!fsCsvTwo.batchFileSkipLines.isEmpty
            || !(Marshaller.equal fsCsvTwo.targetMarshaller fsCsvTwo.marshaller))
    ∧ (∃ u, fsCsvTwo.flushBatchFile.2.1 = some u
        ∧ u.format = (if !(Marshaller.equal fsCsvTwo.targetMarshaller fsCsvTwo.marshaller)
            then fsCsvTwo.targetMarshaller.format else fsCsvTwo.marshaller.format)
        ∧ objectsOf u.lines = objectsOf (idxFilter fsCsvTwo.batchFileSkipLines
            [Line.obj [("id", "1"), ("v", "a")], Line.obj [("id", "1"), ("v", "b")]]))
    ∧ rpOne.flushBatchFile.2 = none
    ∧ rpOne.flushBatchFile.1.txOps
        = (rpOne.txOps ++ [TxOp.createTable rpOneTmp])
          ++ [TxOp.loadRows rpOneTmp.name
                (objectsOf (idxFilter rpOne.batchFileSkipLines
                  [Line.obj [("x", "5"), (PartitonIdKeyword, "2024-01")]]))] :=
  C5_flush_dedup_convert jsonMarshaller { format := "csv", compression := "none" }
    ["id", "v"] [0] [Line.obj [("id", "1")], Line.obj [("id", "2")]] (by decide)
    fsCsvTwo [Line.obj [("id", "1"), ("v", "a")], Line.obj [("id", "1"), ("v", "b")]]
    rfl (by decide) (by decide)
    rpOne rpOneTmp [Line.obj [("x", "5"), (PartitonIdKeyword, "2024-01")]]
    rfl rfl (by decide) (by decide)

theorem runMerge_concat (nh : Bool) (pks : List String) (p : String) :
    runMerge nh (pks ++ [p])
      = (mergeStep (runMerge nh pks).1 (runMerge nh pks).2 nh p,
         (runMerge nh pks).2 + 1) := by
  unfold runMerge runMergeFrom
  rw [List.foldl_append]
  rfl

theorem runMerge_len (nh : Bool) (pks : List String) :
    (runMerge nh pks).2 = pks.length := by
  induction pks using List.reverseRecOn with
  | nil => rfl
  | append_singleton xs x ih =>
      rw [runMerge_concat]
      simp [ih]

theorem lastOcc_concat (xs : List String) (p q : String) :
    lastOcc (xs ++ [p]) q = if p = q then some xs.length else lastOcc xs q := by
  induction xs with
  | nil => by_cases h : p = q <;> simp [lastOcc, h]
  | cons x t ih =>
      show lastOcc (x :: (t ++ [p])) q = _
      by_cases h : p = q
      · subst h
        simp [lastOcc, ih]
      · simp [lastOcc, ih, h]

theorem lastOcc_bound (xs : List String) (p : String) :
    ∀ m, lastOcc xs p = some m → m < xs.length := by
  induction xs with
  | nil => intro m h; cases h
  | cons x t ih =>
      intro m h
      unfold lastOcc at h
      cases ht : lastOcc t p with
      | some i =>
          rw [ht] at h
          cases h
          exact Nat.succ_lt_succ (ih i ht)
      | none =>
          rw [ht] at h
          by_cases hx : x = p
          · rw [if_pos hx] at h
            cases h
            exact Nat.succ_pos _
          · rw [if_neg hx] at h
            cases h

theorem lastOcc_get (xs : List String) (p : String) :
    ∀ m, lastOcc xs p = some m → xs.get? m = some p := by
  induction xs with
  | nil => intro m h; cases h
  | cons x t ih =>
      intro m h
      unfold lastOcc at h
      cases ht : lastOcc t p with
      | some i =>
          rw [ht] at h
          cases h
          exact ih i ht
      | none =>
          rw [ht] at h
          by_cases hx : x = p
          · rw [if_pos hx] at h
            cases h
            simp [hx]
          · rw [if_neg hx] at h
            cases h

theorem lastOcc_ge (xs : List String) (p : String) :
    ∀ i, xs.get? i = some p → ∃ m, lastOcc xs p = some m ∧ i ≤ m := by
  induction xs with
  | nil => intro i h; cases h
  | cons x t ih =>
      intro i h
      cases i with
      | zero =>
          have hx : x = p := by simpa using h
          cases ht : lastOcc t p with
          | some m => exact ⟨m + 1, by simp [lastOcc, ht], Nat.zero_le _⟩
          | none => exact ⟨0, by simp [lastOcc, ht, hx], Nat.le_refl 0⟩
      | succ j =>
          have hj : t.get? j = some p := by simpa using h
          obtain ⟨m, hm, hle⟩ := ih j hj
          exact ⟨m + 1, by simp [lastOcc, hm], Nat.succ_le_succ hle⟩

/-- The merge bookkeeping, characterized: `linesByPK` maps each PK to the
(offset) index of its latest occurrence, and `skipLines` is exactly the set
of (offset) indices of non-latest occurrences. -/
theorem runMerge_char (nh : Bool) (pks : List String) :
    (∀ p, alookup p (runMerge nh pks).1.linesByPK
        = (lastOcc pks p).map (fun i => i + (if nh then 1 else 0)))
    ∧ (∀ l, l ∈ (runMerge nh pks).1.skipLines
        ↔ ∃ i p, pks.get? i = some p ∧ lastOcc pks p ≠ some i
            ∧ l = i + (if nh then 1 else 0)) := by
  induction pks using List.reverseRecOn with
  | nil =>
      constructor
      · intro p
        rfl
      · intro l
        constructor
        · intro h
          simp [runMerge, runMergeFrom] at h
        · rintro ⟨i, p, hi, -, -⟩
          simp at hi
  | append_singleton xs p ih =>
      obtain ⟨ih1, ih2⟩ := ih
      have hlen := runMerge_len nh xs
      rw [runMerge_concat]
      constructor
      · intro q
        show alookup q (mergeStep (runMerge nh xs).1 (runMerge nh xs).2 nh p).linesByPK = _
        simp only [mergeStep]
        rw [alookup_aput, lastOcc_concat, hlen]
        by_cases hpq : p = q
        · rw [if_pos hpq, if_pos hpq]
          cases nh <;> simp
        · rw [if_neg hpq, if_neg hpq]
          exact ih1 q
      · intro l
        show l ∈ (mergeStep (runMerge nh xs).1 (runMerge nh xs).2 nh p).skipLines ↔ _
        simp only [mergeStep]
        rw [ih1 p]
        cases hlo : lastOcc xs p with
        | some m =>
            have hmlt : m < xs.length := lastOcc_bound xs p m hlo
            simp only [Option.map_some']
            rw [mem_sput]
            constructor
            · rintro (rfl | hmem)
              · refine ⟨m, p, ?_, ?_, rfl⟩
                · rw [List.get?_append hmlt]
                  exact lastOcc_get xs p m hlo
                · rw [lastOcc_concat, if_pos rfl]
                  intro heq
                  cases heq
                  omega
              · obtain ⟨i, q, hget, hne, hl⟩ := ih2 l |>.mp hmem
                have hilt : i < xs.length := by
                  rcases List.get?_eq_some.mp hget with ⟨hw, -⟩
                  exact hw
                refine ⟨i, q, ?_, ?_, hl⟩
                · rw [List.get?_append hilt]
                  exact hget
                · rw [lastOcc_concat]
                  by_cases hpq : p = q
                  · rw [if_pos hpq]
                    intro heq
                    cases heq
                    omega
                  · rw [if_neg hpq]
                    exact hne
            · rintro ⟨i, q, hget, hne, rfl⟩
              have hitot : i < xs.length + 1 := by
                rcases List.get?_eq_some.mp hget with ⟨hw, -⟩
                simpa using hw
              rcases Nat.lt_succ_iff_lt_or_eq.mp hitot with hilt | hieq
              · have hget2 : xs.get? i = some q := by
                  rw [List.get?_append hilt] at hget
                  exact hget
                by_cases hpq : p = q
                · subst hpq
                  obtain ⟨m2, hm2, hile⟩ := lastOcc_ge xs p i hget2
                  rw [hlo] at hm2
                  injection hm2 with hm2e
                  subst hm2e
                  by_cases him : i = m
                  · exact Or.inl (by rw [him])
                  · refine Or.inr (ih2 _ |>.mpr ⟨i, p, hget2, ?_, rfl⟩)
                    rw [hlo]
                    intro heq
                    injection heq with h3
                    exact him h3.symm
                · refine Or.inr (ih2 _ |>.mpr ⟨i, q, hget2, ?_, rfl⟩)
                  rw [lastOcc_concat, if_neg hpq] at hne
                  exact hne
              · subst hieq
                have hq : q = p := by
                  rw [List.get?_concat_length] at hget
                  cases hget
                  rfl
                subst hq
                rw [lastOcc_concat, if_pos rfl] at hne
                exact absurd rfl hne
        | none =>
            simp only [Option.map_none']
            constructor
            · intro hmem
              obtain ⟨i, q, hget, hne, hl⟩ := ih2 l |>.mp hmem
              have hilt : i < xs.length := by
                rcases List.get?_eq_some.mp hget with ⟨hw, -⟩
                exact hw
              refine ⟨i, q, ?_, ?_, hl⟩
              · rw [List.get?_append hilt]
                exact hget
              · rw [lastOcc_concat]
                by_cases hpq : p = q
                · subst hpq
                  obtain ⟨m2, hm2, -⟩ := lastOcc_ge xs p i hget
                  rw [hlo] at hm2
                  cases hm2
                · rw [if_neg hpq]
                  exact hne
            · rintro ⟨i, q, hget, hne, rfl⟩
              have hitot : i < xs.length + 1 := by
                rcases List.get?_eq_some.mp hget with ⟨hw, -⟩
                simpa using hw
              rcases Nat.lt_succ_iff_lt_or_eq.mp hitot with hilt | hieq
              · have hget2 : xs.get? i = some q := by
                  rw [List.get?_append hilt] at hget
                  exact hget
                by_cases hpq : p = q
                · subst hpq
                  obtain ⟨m2, hm2, -⟩ := lastOcc_ge xs p i hget2
                  rw [hlo] at hm2
                  cases hm2
                · refine ih2 _ |>.mpr ⟨i, q, hget2, ?_, rfl⟩
                  rw [lastOcc_concat, if_neg hpq] at hne
                  exact hne
              · subst hieq
                have hq : q = p := by
                  rw [List.get?_concat_length] at hget
                  cases hget
                  rfl
                subst hq
                rw [lastOcc_concat, if_pos rfl] at hne
                exact absurd rfl hne

/-- The recorded skip lines always lie below the event counter. -/
theorem runMerge_skip_bound (nh : Bool) (pks : List String) :
    ∀ l ∈ (runMerge nh pks).1.skipLines, l < (runMerge nh pks).2 := by
  intro l hl
  obtain ⟨i, p, hget, hne, rfl⟩ := (runMerge_char nh pks).2 l |>.mp hl
  rw [runMerge_len]
  obtain ⟨m, hm, hile⟩ := lastOcc_ge pks p i hget
  have hmb := lastOcc_bound pks p m hm
  have hne2 : i ≠ m := by
    intro h
    exact hne (h ▸ hm)
  cases nh <;> simp <;> omega

theorem fsInit_of_inited (ps : AbstractFileStorageStream) (h : ps.inited = true) :
    ps.init = ps := by
  simp [AbstractFileStorageStream.init, h]

theorem jsonMarshaller_needHeader : jsonMarshaller.needHeader = false := rfl

/-- One accepted `Consume` of a single-PK merge file-storage stream advances
the merge bookkeeping by exactly one `mergeStep` on the PK value, with no
header offset (the on-disk marshaller is NDJSON). -/
theorem fsConsume_merge_step (ps : AbstractFileStorageStream) (o : Object)
    (c v : String) (hm : ps.merge = true) (hpk : ps.pkColumns = [c])
    (hin : ps.inited = true) (hmar : ps.marshaller = jsonMarshaller)
    (hv : alookup c o = some v) :
    (ps.consume o).2 = none
    ∧ (ps.consume o).1.merge = true
    ∧ (ps.consume o).1.pkColumns = [c]
    ∧ (ps.consume o).1.inited = true
    ∧ (ps.consume o).1.marshaller = jsonMarshaller
    ∧ (ps.consume o).1.eventsInBatch = ps.eventsInBatch + 1
    ∧ (ps.consume o).1.batchFileLinesByPK
        = (mergeStep ⟨ps.batchFileLinesByPK, ps.batchFileSkipLines⟩
            ps.eventsInBatch false v).linesByPK
    ∧ (ps.consume o).1.batchFileSkipLines
        = (mergeStep ⟨ps.batchFileLinesByPK, ps.batchFileSkipLines⟩
            ps.eventsInBatch false v).skipLines := by
  simp only [AbstractFileStorageStream.consume, fsInit_of_inited ps hin, fsPreprocess_id]
  split
  all_goals
    simp only [AbstractFileStorageStream.writeToBatchFile,
      AbstractFileStorageStream.getPKValue, AbstractFileStorageStream.postConsume,
      hm, hpk, hmar, hv, jsonMarshaller_needHeader, if_true]
  all_goals
    exact ⟨by trivial, by trivial, by trivial, hin, by trivial, by trivial,
      by trivial, by trivial⟩

/-- Folding accepted `Consume` calls over a single-PK merge file-storage
stream advances the bookkeeping exactly as `runMergeFrom` on the PK values. -/
theorem fsConsumeAll_merge (c : String) (os : List Object) :
    ∀ ps : AbstractFileStorageStream,
      ps.merge = true → ps.pkColumns = [c] → ps.inited = true →
      ps.marshaller = jsonMarshaller →
      (∀ o ∈ os, (alookup c o).isSome = true) →
      (ps.consumeAll os).batchFileLinesByPK
        = (runMergeFrom false (⟨ps.batchFileLinesByPK, ps.batchFileSkipLines⟩,
            ps.eventsInBatch) (os.map (fun o => (alookup c o).getD ""))).1.linesByPK
      ∧ (ps.consumeAll os).batchFileSkipLines
        = (runMergeFrom false (⟨ps.batchFileLinesByPK, ps.batchFileSkipLines⟩,
            ps.eventsInBatch) (os.map (fun o => (alookup c o).getD ""))).1.skipLines
      ∧ (ps.consumeAll os).eventsInBatch
        = (runMergeFrom false (⟨ps.batchFileLinesByPK, ps.batchFileSkipLines⟩,
            ps.eventsInBatch) (os.map (fun o => (alookup c o).getD ""))).2 := by
  induction os with
  | nil =>
      intro ps _ _ _ _ _
      exact ⟨rfl, rfl, rfl⟩
  | cons o t ih =>
      intro ps h1 h2 h3 h4 hall
      have hmem : (alookup c o).isSome = true := hall o (List.mem_cons_self o t)
      obtain ⟨v, hv⟩ := Option.isSome_iff_exists.mp hmem
      obtain ⟨s1, s2, s3, s4, s5, s6, s7, s8⟩ := fsConsume_merge_step ps o c v h1 h2 h3 h4 hv
      have hall2 : ∀ o2 ∈ t, (alookup c o2).isSome = true :=
        fun o2 ho2 => hall o2 (List.mem_cons_of_mem o ho2)
      obtain ⟨r1, r2, r3⟩ := ih (ps.consume o).1 s2 s3 s4 s5 hall2
      have hstep : runMergeFrom false
          (⟨ps.batchFileLinesByPK, ps.batchFileSkipLines⟩, ps.eventsInBatch)
          ((o :: t).map (fun o2 => (alookup c o2).getD ""))
        = runMergeFrom false
          (⟨(ps.consume o).1.batchFileLinesByPK, (ps.consume o).1.batchFileSkipLines⟩,
            (ps.consume o).1.eventsInBatch)
          (t.map (fun o2 => (alookup c o2).getD "")) := by
        show runMergeFrom false _ (((alookup c o).getD "") :: t.map _) = _
        unfold runMergeFrom
        rw [List.foldl_cons]
        have hgd : (alookup c o).getD "" = v := by rw [hv]; rfl
        have hmi : (⟨(ps.consume o).1.batchFileLinesByPK,
            (ps.consume o).1.batchFileSkipLines⟩ : MergeInfo)
            = mergeStep ⟨ps.batchFileLinesByPK, ps.batchFileSkipLines⟩
                ps.eventsInBatch false v := by
          rw [s7, s8]
        rw [hgd, hmi, s6]
      refine ⟨?_, ?_, ?_⟩
      · show ((ps.consume o).1.consumeAll t).batchFileLinesByPK = _
        rw [r1, hstep]
      · show ((ps.consume o).1.consumeAll t).batchFileSkipLines = _
        rw [r2, hstep]
      · show ((ps.consume o).1.consumeAll t).eventsInBatch = _
        rw [r3, hstep]

theorem rpAdjust_fields (ps : ReplacePartitionStream) (t : Table) :
    (ps.adjustTables t).merge = ps.merge
    ∧ (ps.adjustTables t).pkColumns = ps.pkColumns
    ∧ (ps.adjustTables t).marshaller = ps.marshaller
    ∧ (ps.adjustTables t).headerInited = ps.headerInited
    ∧ (ps.adjustTables t).batchFile = ps.batchFile
    ∧ (ps.adjustTables t).eventsInBatch = ps.eventsInBatch
    ∧ (ps.adjustTables t).batchFileLinesByPK = ps.batchFileLinesByPK
    ∧ (ps.adjustTables t).batchFileSkipLines = ps.batchFileSkipLines := by
  simp only [ReplacePartitionStream.adjustTables]
  repeat' split
  all_goals exact ⟨rfl, rfl, rfl, rfl, rfl, rfl, rfl, rfl⟩

/-- One merge write of the transactional stream with a single PK column
performs exactly one `mergeStep` on the (`<nil>`-defaulted) PK value, offset
by the on-disk marshaller's header need. -/
theorem rpWrite_merge_step (ps : ReplacePartitionStream) (t : Table) (o : Object)
    (c0 : String) (hm : ps.merge = true) (hpkc : ps.pkColumns = [c0]) :
    (ps.writeToBatchFile t o).2 = none
    ∧ (ps.writeToBatchFile t o).1.batchFileLinesByPK
        = (mergeStep ⟨ps.batchFileLinesByPK, ps.batchFileSkipLines⟩
            ps.eventsInBatch ps.marshaller.needHeader
            ((alookup c0 o).getD "<nil>")).linesByPK
    ∧ (ps.writeToBatchFile t o).1.batchFileSkipLines
        = (mergeStep ⟨ps.batchFileLinesByPK, ps.batchFileSkipLines⟩
            ps.eventsInBatch ps.marshaller.needHeader
            ((alookup c0 o).getD "<nil>")).skipLines
    ∧ (ps.writeToBatchFile t o).1.eventsInBatch = ps.eventsInBatch + 1 := by
  obtain ⟨f1, f2, f3, f4, f5, f6, f7, f8⟩ := rpAdjust_fields ps t
  simp only [ReplacePartitionStream.writeToBatchFile,
    ReplacePartitionStream.getPKValue, f1, f2, f3, f4, f5, f6, f7, f8, hm, hpkc, if_true]
  exact ⟨by trivial, by trivial, by trivial, by trivial⟩

theorem fsNew_ok_fields (id ts : String) (p : FileAdapter) (mR : Bool)
    (pk : List String) (s0 : AbstractFileStorageStream)
    (hs0 : newAbstractFileStorageStream id p mR pk ts = .ok s0) :
    s0.merge = mR ∧ s0.pkColumns = pk ∧ s0.inited = false ∧ s0.batchFile = none
    ∧ s0.batchFileLinesByPK = [] ∧ s0.batchFileSkipLines = []
    ∧ s0.eventsInBatch = 0 := by
  unfold newAbstractFileStorageStream at hs0
  split at hs0
  · cases hs0
  · cases hs0
    exact ⟨rfl, rfl, rfl, rfl, rfl, rfl, rfl⟩

theorem fsInit_fresh (ps : AbstractFileStorageStream) (hi : ps.inited = false)
    (hb : ps.batchFile = none) :
    ps.init.merge = ps.merge ∧ ps.init.pkColumns = ps.pkColumns
    ∧ ps.init.inited = true ∧ ps.init.marshaller = jsonMarshaller
    ∧ ps.init.batchFileLinesByPK = ps.batchFileLinesByPK
    ∧ ps.init.batchFileSkipLines = ps.batchFileSkipLines
    ∧ ps.init.eventsInBatch = ps.eventsInBatch := by
  simp only [AbstractFileStorageStream.init, hi, hb]
  norm_num

/-- C2: after any sequence of accepted `Consume` calls on a merge stream,
`linesByPK` maps each PK string to the (header-offset) line index of its
latest occurrence, `skipLines` is exactly the set of (offset) indices of the
non-latest occurrences, and `skipLines ⊆ [0, eventsInBatch)`; a fresh
file-storage merge stream follows this bookkeeping exactly (NDJSON on disk,
no header offset), and the transactional `writeToBatchFile` performs the
identical step. -/
theorem C2_merge_dedup_bookkeeping
    (nh : Bool) (pks : List String)
    (id ts : String) (p : FileAdapter) (c : String) (os : List Object)
    (s0 : AbstractFileStorageStream)
    (hs0 : newAbstractFileStorageStream id p true [c] ts = .ok s0)
    (hall : ∀ o ∈ os, (alookup c o).isSome = true)
    (rp : ReplacePartitionStream) (t0 : Table) (o0 : Object) (c2 : String)
    (hm2 : rp.merge = true) (hpkc2 : rp.pkColumns = [c2]) :
    (∀ q, alookup q (runMerge nh pks).1.linesByPK
        = (lastOcc pks q).map (fun i => i + (if nh then 1 else 0)))
    ∧ (∀ l, l ∈ (runMerge nh pks).1.skipLines
        ↔ ∃ i q, pks.get? i = some q ∧ lastOcc pks q ≠ some i
            ∧ l = i + (if nh then 1 else 0))
    ∧ (∀ l ∈ (runMerge nh pks).1.skipLines, l < (runMerge nh pks).2)
    ∧ (s0.init.consumeAll os).batchFileLinesByPK
        = (runMerge false (os.map (fun o => (alookup c o).getD ""))).1.linesByPK
    ∧ (s0.init.consumeAll os).batchFileSkipLines
        = (runMerge false (os.map (fun o => (alookup c o).getD ""))).1.skipLines
    ∧ (s0.init.consumeAll os).eventsInBatch
        = (runMerge false (os.map (fun o => (alookup c o).getD ""))).2
    ∧ (rp.writeToBatchFile t0 o0).2 = none
    ∧ (rp.writeToBatchFile t0 o0).1.batchFileLinesByPK
        = (mergeStep ⟨rp.batchFileLinesByPK, rp.batchFileSkipLines⟩
            rp.eventsInBatch rp.marshaller.needHeader
            ((alookup c2 o0).getD "<nil>")).linesByPK
    ∧ (rp.writeToBatchFile t0 o0).1.batchFileSkipLines
        = (mergeStep ⟨rp.batchFileLinesByPK, rp.batchFileSkipLines⟩
            rp.eventsInBatch rp.marshaller.needHeader
            ((alookup c2 o0).getD "<nil>")).skipLines
    ∧ (rp.writeToBatchFile t0 o0).1.eventsInBatch = rp.eventsInBatch + 1 := by
  obtain ⟨ch1, ch2⟩ := runMerge_char nh pks
  obtain ⟨n1, n2, n3, n4, n5, n6, n7⟩ := fsNew_ok_fields id ts p true [c] s0 hs0
  obtain ⟨i1, i2, i3, i4, i5, i6, i7⟩ := fsInit_fresh s0 n3 n4
  obtain ⟨r1, r2, r3⟩ := fsConsumeAll_merge c os s0.init (by rw [i1, n1])
    (by rw [i2, n2]) i3 i4 hall
  have hstart : ((⟨s0.init.batchFileLinesByPK, s0.init.batchFileSkipLines⟩ : MergeInfo),
      s0.init.eventsInBatch) = ((⟨[], []⟩ : MergeInfo), 0) := by
    rw [i5, i6, i7, n5, n6, n7]
  rw [hstart] at r1 r2 r3
  obtain ⟨w1, w2, w3, w4⟩ := rpWrite_merge_step rp t0 o0 c2 hm2 hpkc2
  exact ⟨ch1, ch2, runMerge_skip_bound nh pks, r1, r2, r3, w1, w2, w3, w4⟩

theorem C2_merge_dedup_bookkeeping_witness :
    (∀ q, alookup q (runMerge true ["a", "b", "a"]).1.linesByPK
        = (lastOcc ["a", "b", "a"] q).map (fun i => i + (if true then 1 else 0)))
    ∧ (∀ l, l ∈ (runMerge true ["a", "b", "a"]).1.skipLines
        ↔ ∃ i q, (["a", "b", "a"] : List String).get? i = some q
            ∧ lastOcc ["a", "b", "a"] q ≠ some i ∧ l = i + (if true then 1 else 0))
    ∧ (∀ l ∈ (runMerge true ["a", "b", "a"]).1.skipLines,
        l < (runMerge true ["a", "b", "a"]).2)
    ∧ (fsMergeStream.init.consumeAll [[("id", "1")], [("id", "2")], [("id", "1")]]).batchFileLinesByPK
        = (runMerge false ([[("id", "1")], [("id", "2")], [("id", "1")]].map
            (fun o => (alookup "id" o).getD ""))).1.linesByPK
    ∧ (fsMergeStream.init.consumeAll [[("id", "1")], [("id", "2")], [("id", "1")]]).batchFileSkipLines
        = (runMerge false ([[("id", "1")], [("id", "2")], [("id", "1")]].map
            (fun o => (alookup "id" o).getD ""))).1.skipLines
    ∧ (fsMergeStream.init.consumeAll [[("id", "1")], [("id", "2")], [("id", "1")]]).eventsInBatch
        = (runMerge false ([[("id", "1")], [("id", "2")], [("id", "1")]].map
            (fun o => (alookup "id" o).getD ""))).2
    ∧ (rpMergeFresh.writeToBatchFile rpOneTmp [("id", "7")]).2 = none
    ∧ (rpMergeFresh.writeToBatchFile rpOneTmp [("id", "7")]).1.batchFileLinesByPK
        = (mergeStep ⟨rpMergeFresh.batchFileLinesByPK, rpMergeFresh.batchFileSkipLines⟩
            rpMergeFresh.eventsInBatch rpMergeFresh.marshaller.needHeader
            ((alookup "id" [("id", "7")]).getD "<nil>")).linesByPK
    ∧ (rpMergeFresh.writeToBatchFile rpOneTmp [("id", "7")]).1.batchFileSkipLines
        = (mergeStep ⟨rpMergeFresh.batchFileLinesByPK, rpMergeFresh.batchFileSkipLines⟩
            rpMergeFresh.eventsInBatch rpMergeFresh.marshaller.needHeader
            ((alookup "id" [("id", "7")]).getD "<nil>")).skipLines
    ∧ (rpMergeFresh.writeToBatchFile rpOneTmp [("id", "7")]).1.eventsInBatch
        = rpMergeFresh.eventsInBatch + 1 :=
  C2_merge_dedup_bookkeeping true ["a", "b", "a"] "fs-merge" "" ndjsonAdapter "id"
    [[("id", "1")], [("id", "2")], [("id", "1")]] fsMergeStream rfl (by decide)
    rpMergeFresh rpOneTmp [("id", "7")] "id" rfl rfl

/-- C9: constructing a stream with a missing required option creates no
stream and returns an error: `newReplacePartitionStream` without the
`PartitionId` option (empty string) fails, and a file-storage stream with
`MergeRows` but no `PrimaryKey` option fails; the `.error` results carry no
stream object. -/
theorem C9_missing_required_option (id tableName : String) (merge : Bool)
    (pk : List String) (ubf : Bool) (fmt comp ts : String) (p : FileAdapter)
    (hpk : pk = []) :
    newReplacePartitionStream id tableName "" merge pk ubf fmt comp
      = .error "WithPartition is required option for ReplacePartitionStream"
    ∧ newAbstractFileStorageStream id p true pk ts
      = .error "MergeRows option requires primary key option. Please provide WithPrimaryKey option" := by
  subst hpk
  exact ⟨by simp [newReplacePartitionStream], by simp [newAbstractFileStorageStream]⟩

theorem C9_missing_required_option_witness :
    newReplacePartitionStream "rp1" "dst" "" false [] true "ndjson" "none"
      = .error "WithPartition is required option for ReplacePartitionStream"
    ∧ newAbstractFileStorageStream "fs1" ndjsonAdapter true [] ""
      = .error "MergeRows option requires primary key option. Please provide WithPrimaryKey option" :=
  C9_missing_required_option "rp1" "dst" false [] true "ndjson" "none" "" ndjsonAdapter rfl

/-- C8 (evaluation of the code at the failing input): the file-storage
stream never increments `processedRows` — after one accepted `Consume` the
state shows `processedRows = 0` while `successfulRows = 1`, so the claimed
increment (and the invariant `successfulRows ≤ processedRows`) fails on the
code as written. -/
theorem C8_processedRows_not_incremented :
    (fsAppendStream.consume [("a", "1")]).1.state.processedRows = 0
    ∧ (fsAppendStream.consume [("a", "1")]).1.state.successfulRows = 1
    ∧ ¬ (fsAppendStream.consume [("a", "1")]).1.state.successfulRows
        ≤ (fsAppendStream.consume [("a", "1")]).1.state.processedRows := by
  exact ⟨rfl, rfl, by decide⟩

/-- C1 (counterexample): a file-storage merge stream that accepted one
object and then recorded a row error returns a non-nil error from
`Complete`, yet the returned state keeps `successfulRows = 1`, refuting
"non-nil error implies `successfulRows = 0`". -/
theorem C1_counterexample :
    fsCexRun.complete.2.2.1 = some "primary key [id] is not found in the object"
    ∧ ¬ fsCexRun.complete.2.1.successfulRows = 0 := by
  exact ⟨rfl, by decide⟩

/-- C1 (amended): for a transactional SQL (ReplacePartition) stream in
Active status, a `Complete` returning a non-nil error yields `status=Failed`
and `successfulRows = 0`; for a file-storage stream in Active status it
yields `status=Failed` but `successfulRows` keeps the count of accepted
rows. -/
theorem C1_failed_complete (rp : ReplacePartitionStream) (db : DB)
    (fs : AbstractFileStorageStream)
    (hrp : rp.state.status = .active) (hfs : fs.state.status = .active)
    (e1 e2 : String)
    (he1 : (rp.complete db).2.2.2.1 = some e1)
    (he2 : fs.complete.2.2.1 = some e2) :
    ((rp.complete db).2.2.1.status = .failed
      ∧ (rp.complete db).2.2.1.successfulRows = 0)
    ∧ (fs.complete.2.1.status = .failed
      ∧ fs.complete.2.1.successfulRows = fs.state.successfulRows) := by
  constructor
  · obtain ⟨ps1, db1, er, tr, heq⟩ := rpComplete_shape rp db hrp
    rw [heq] at he1 ⊢
    rw [rpFinish_err] at he1
    subst he1
    exact ⟨rpFinish_status_some ps1 db1 e1 tr, rpFinish_sr_some ps1 db1 e1 tr⟩
  · obtain ⟨ps1, er, up, hstate, heq⟩ := fsComplete_shape fs hfs
    rw [heq] at he2 ⊢
    rw [fsPostComplete_err] at he2
    subst he2
    refine ⟨?_, ?_⟩
    · rw [fsPostComplete_status]
    · rw [fsPostComplete_successfulRows, hstate]

theorem C1_failed_complete_witness :
    (((rpErrStream.complete []).2.2.1.status = .failed)
      ∧ (rpErrStream.complete []).2.2.1.successfulRows = 0)
    ∧ ((fsCexRun.complete.2.1.status = .failed)
      ∧ fsCexRun.complete.2.1.successfulRows = fsCexRun.state.successfulRows) :=
  C1_failed_complete rpErrStream [] fsCexRun rfl rfl "boom"
    "primary key [id] is not found in the object" rfl rfl

/-- C7: the status machine is monotone — `Consume` never changes the status,
`Complete` moves an Active stream to `Completed` or `Failed`, `Abort` moves
it to `Aborted`, and no operation returns a stream to `Active`; calling
`Complete` or `Abort` on a non-Active stream returns an error and leaves the
stream, its state and the database untouched. -/
theorem C7_status_machine
    (fs fs2 : AbstractFileStorageStream) (o : Object)
    (rp rp2 : ReplacePartitionStream) (db db2 : DB) (o2 : Object)
    (hfs : fs.state.status ≠ .active) (hrp : rp.state.status ≠ .active) :
    (fs.complete = (fs, fs.state, some "stream is not active", none)
      ∧ fs.abort = (fs, fs.state, some "stream is not active")
      ∧ rp.complete db = (rp, db, rp.state, some "stream is not active", [])
      ∧ rp.abort = (rp, rp.state, some "stream is not active"))
    ∧ ((fs2.consume o).1.state.status = fs2.state.status)
    ∧ (fs2.complete.1.state.status = fs2.state.status
        ∨ (fs2.state.status = .active
            ∧ (fs2.complete.1.state.status = .completed
                ∨ fs2.complete.1.state.status = .failed)))
    ∧ (fs2.abort.1.state.status = fs2.state.status
        ∨ (fs2.state.status = .active ∧ fs2.abort.1.state.status = .aborted))
    ∧ ((rp2.consume o2).1.state.status = rp2.state.status)
    ∧ ((rp2.complete db2).1.state.status = rp2.state.status
        ∨ (rp2.state.status = .active
            ∧ ((rp2.complete db2).1.state.status = .completed
                ∨ (rp2.complete db2).1.state.status = .failed)))
    ∧ (rp2.abort.1.state.status = rp2.state.status
        ∨ (rp2.state.status = .active ∧ rp2.abort.1.state.status = .aborted)) := by
  refine ⟨⟨?_, ?_, ?_, ?_⟩, fsConsume_status fs2 o, ?_, ?_, rpConsume_status rp2 o2, ?_, ?_⟩
  · simp only [AbstractFileStorageStream.complete]
    rw [if_pos hfs]
  · simp only [AbstractFileStorageStream.abort]
    rw [if_pos hfs]
  · simp only [ReplacePartitionStream.complete]
    rw [if_pos hrp]
  · simp only [ReplacePartitionStream.abort]
    rw [if_pos hrp]
  · by_cases h : fs2.state.status = .active
    · right
      refine ⟨h, ?_⟩
      obtain ⟨ps1, er, up, _, heq⟩ := fsComplete_shape fs2 h
      rw [heq]
      show ((ps1.postComplete er).1.state.status = _ ∨ _)
      rw [fsPostComplete_st_eq, fsPostComplete_status]
      cases er
      · exact Or.inl rfl
      · exact Or.inr rfl
    · left
      simp only [AbstractFileStorageStream.complete]
      rw [if_pos h]
  · by_cases h : fs2.state.status = .active
    · right
      refine ⟨h, ?_⟩
      simp only [AbstractFileStorageStream.abort]
      rw [if_neg (by simp [h])]
    · left
      simp only [AbstractFileStorageStream.abort]
      rw [if_pos h]
  · by_cases h : rp2.state.status = .active
    · right
      refine ⟨h, ?_⟩
      obtain ⟨ps1, db1, er, tr, heq⟩ := rpComplete_shape rp2 db2 h
      rw [heq, rpFinish_st_eq]
      cases er
      · exact Or.inl (rpFinish_status_none ps1 db1 tr)
      · exact Or.inr (rpFinish_status_some ps1 db1 _ tr)
    · left
      simp only [ReplacePartitionStream.complete]
      rw [if_pos h]
  · by_cases h : rp2.state.status = .active
    · right
      refine ⟨h, ?_⟩
      simp only [ReplacePartitionStream.abort]
      rw [if_neg (by simp [h])]
    · left
      simp only [ReplacePartitionStream.abort]
      rw [if_pos h]

/-- C10: consuming an object that lacks the single primary-key column of a
file-storage merge stream yields a row-level error: the object is not
written to the batch file, `eventsInBatch` is unchanged, `successfulRows` is
not incremented, and `errorRowIndex` and `lastError` are set. -/
theorem C10_missing_pk_is_row_error (fs : AbstractFileStorageStream) (c : String)
    (o : Object) (hm : fs.merge = true) (hpk : fs.pkColumns = [c])
    (ho : alookup c o = none) :
    (fs.consume o).2 = some ("primary key [" ++ c ++ "] is not found in the object")
    ∧ (fs.consume o).1.eventsInBatch = fs.eventsInBatch
    ∧ (fs.consume o).1.state.successfulRows = fs.state.successfulRows
    ∧ (fs.consume o).1.state.errorRowIndex = fs.state.processedRows
    ∧ (fs.consume o).1.state.lastError
        = some ("primary key [" ++ c ++ "] is not found in the object")
    ∧ objectsOf ((fs.consume o).1.batchFile.getD [])
        = objectsOf (fs.init.batchFile.getD []) := by
  simp only [AbstractFileStorageStream.consume, fsPreprocess_id]
  split
  case isTrue hcsv =>
    obtain ⟨h1, h2, h3, h4⟩ :=
      fsWrite_pk_error_proj { fs.init with csvHeader := putAllKeys fs.init.csvHeader o }
        c o (by simp [fsInit_merge, hm]) (by simp [fsInit_pkColumns, hpk]) ho
    rw [h1]
    simp only [AbstractFileStorageStream.postConsume]
    refine ⟨by trivial, ?_, ?_, ?_, by trivial, ?_⟩
    · rw [h2]
      simp [fsInit_eventsInBatch]
    · simp only [StreamState.setError]
      rw [h3]
      simp [fsInit_state]
    · rw [h3]
      simp [fsInit_state]
    · rw [h4]
  case isFalse hcsv =>
    obtain ⟨h1, h2, h3, h4⟩ :=
      fsWrite_pk_error_proj fs.init c o (by simp [fsInit_merge, hm])
        (by simp [fsInit_pkColumns, hpk]) ho
    rw [h1]
    simp only [AbstractFileStorageStream.postConsume]
    refine ⟨by trivial, ?_, ?_, ?_, by trivial, ?_⟩
    · rw [h2, fsInit_eventsInBatch]
    · simp only [StreamState.setError]
      rw [h3, fsInit_state]
    · rw [h3, fsInit_state]
    · rw [h4]

theorem C10_missing_pk_is_row_error_witness :
    (fsMergeStream.consume [("v", "x")]).2
      = some "primary key [id] is not found in the object"
    ∧ (fsMergeStream.consume [("v", "x")]).1.eventsInBatch = fsMergeStream.eventsInBatch
    ∧ (fsMergeStream.consume [("v", "x")]).1.state.successfulRows
        = fsMergeStream.state.successfulRows
    ∧ (fsMergeStream.consume [("v", "x")]).1.state.errorRowIndex
        = fsMergeStream.state.processedRows
    ∧ (fsMergeStream.consume [("v", "x")]).1.state.lastError
        = some "primary key [id] is not found in the object"
    ∧ objectsOf ((fsMergeStream.consume [("v", "x")]).1.batchFile.getD [])
        = objectsOf (fsMergeStream.init.batchFile.getD []) :=
  C10_missing_pk_is_row_error fsMergeStream "id" [("v", "x")] rfl rfl rfl

/-- C6: when the destination table exists but has no `__partition_id`
column, `Complete` of a ReplacePartition stream fails with the fatal
"not managed by ReplacePartitionStream" error, deletes nothing (the database
is unchanged), ends `Failed`, and only rolls back. -/
theorem C6_unmanaged_table_fatal (rp : ReplacePartitionStream) (db : DB) (t : DBTable)
    (hs : rp.state.status = .active) (hle : rp.state.lastError = none)
    (ht : alookup rp.tableName db = some t)
    (hcol : alookup PartitonIdKeyword t.columns = none) :
    (rp.complete db).2.2.2.1
      = some ("couldn't start ReplacePartitionStream: destination table ["
          ++ rp.tableName ++ "] exist but it is not managed by ReplacePartitionStream: "
          ++ PartitonIdKeyword ++ " column is missing")
    ∧ (rp.complete db).2.1 = db
    ∧ (rp.complete db).2.2.1.status = .failed
    ∧ (rp.complete db).2.2.2.2 = [Effect.txRollback] := by
  have hc : rp.clearPartition db
      = (db, some ("couldn't start ReplacePartitionStream: destination table ["
          ++ rp.tableName ++ "] exist but it is not managed by ReplacePartitionStream: "
          ++ PartitonIdKeyword ++ " column is missing"), []) := by
    simp only [ReplacePartitionStream.clearPartition, ht, hcol]
  simp only [ReplacePartitionStream.complete]
  rw [if_neg (by simp [hs])]
  simp only [hle, hc]
  exact ⟨rfl, rfl, rfl, rfl⟩

theorem C6_unmanaged_table_fatal_witness :
    (rpFresh.complete dbUnmanaged).2.2.2.1
      = some ("couldn't start ReplacePartitionStream: destination table ["
          ++ rpFresh.tableName ++ "] exist but it is not managed by ReplacePartitionStream: "
          ++ PartitonIdKeyword ++ " column is missing")
    ∧ (rpFresh.complete dbUnmanaged).2.1 = dbUnmanaged
    ∧ (rpFresh.complete dbUnmanaged).2.2.1.status = .failed
    ∧ (rpFresh.complete dbUnmanaged).2.2.2.2 = [Effect.txRollback] :=
  C6_unmanaged_table_fatal rpFresh dbUnmanaged
    { columns := [("x", "t")], rows := [[("x", "1")]] } rfl rfl rfl rfl

/-- C3: with no recorded error, `Complete` of a ReplacePartition stream on a
managed destination first deletes the partition's rows through the
non-transactional adapter — even when `successfulRows = 0`; flush,
ensure-table and `CopyTables` happen only when `successfulRows > 0`; an
empty stream just deletes the partition and completes successfully. -/
theorem C3_partition_delete_protocol (rp : ReplacePartitionStream) (db : DB)
    (t : DBTable) (ty : String)
    (hs : rp.state.status = .active) (hle : rp.state.lastError = none)
    (ht : alookup rp.tableName db = some t)
    (hcol : alookup PartitonIdKeyword t.columns = some ty) :
    ((rp.complete db).2.2.2.2).head?
        = some (Effect.deleteViaAdapter rp.tableName rp.partitionId)
    ∧ (rp.state.successfulRows = 0 →
        ¬ Effect.flushLoad ∈ (rp.complete db).2.2.2.2
        ∧ ¬ Effect.ensureDst ∈ (rp.complete db).2.2.2.2
        ∧ ¬ Effect.copyTables ∈ (rp.complete db).2.2.2.2)
    ∧ (rp.state.successfulRows = 0 → rp.tmpTable = none → rp.txOps = [] →
        (rp.complete db).2.2.2.1 = none
        ∧ (rp.complete db).2.2.1.status = .completed
        ∧ (rp.complete db).2.1
            = aput rp.tableName
                { t with rows := (t.rows.filter
                    (fun r => alookup PartitonIdKeyword r ≠ some rp.partitionId)) } db
        ∧ (rp.complete db).2.2.2.2
            = [Effect.deleteViaAdapter rp.tableName rp.partitionId, Effect.txCommit]) := by
  have hc : rp.clearPartition db
      = (aput rp.tableName
          { t with rows := (t.rows.filter
              (fun r => alookup PartitonIdKeyword r ≠ some rp.partitionId)) } db,
         none, [Effect.deleteViaAdapter rp.tableName rp.partitionId]) := by
    simp only [ReplacePartitionStream.clearPartition, ht, hcol]
  simp only [ReplacePartitionStream.complete]
  rw [if_neg (by simp [hs])]
  simp only [hle, hc]
  refine ⟨?_, ?_, ?_⟩
  · by_cases hsr : rp.state.successfulRows > 0
    · simp only [if_pos hsr]
      repeat' split
      all_goals simp [ReplacePartitionStream.finishComplete]
    · simp only [if_neg hsr]
      simp [ReplacePartitionStream.finishComplete]
  · intro h0
    have hng : ¬ rp.state.successfulRows > 0 := by omega
    simp only [if_neg hng]
    simp [ReplacePartitionStream.finishComplete]
  · intro h0 htmp hops
    have hng : ¬ rp.state.successfulRows > 0 := by omega
    simp only [if_neg hng]
    simp [ReplacePartitionStream.finishComplete, htmp, hops]

theorem C3_partition_delete_protocol_witness :
    ((rpFresh.complete dbManaged).2.2.2.2).head?
        = some (Effect.deleteViaAdapter rpFresh.tableName rpFresh.partitionId)
    ∧ (rpFresh.state.successfulRows = 0 →
        ¬ Effect.flushLoad ∈ (rpFresh.complete dbManaged).2.2.2.2
        ∧ ¬ Effect.ensureDst ∈ (rpFresh.complete dbManaged).2.2.2.2
        ∧ ¬ Effect.copyTables ∈ (rpFresh.complete dbManaged).2.2.2.2)
    ∧ (rpFresh.state.successfulRows = 0 → rpFresh.tmpTable = none → rpFresh.txOps = [] →
        (rpFresh.complete dbManaged).2.2.2.1 = none
        ∧ (rpFresh.complete dbManaged).2.2.1.status = .completed
        ∧ (rpFresh.complete dbManaged).2.1
            = aput rpFresh.tableName
                { columns := [("x", "t"), (PartitonIdKeyword, "t")],
                  rows := ([[("x", "1"), (PartitonIdKeyword, "2024-01")],
                            [("x", "2"), (PartitonIdKeyword, "2023-12")]].filter
                    (fun r => alookup PartitonIdKeyword r ≠ some rpFresh.partitionId)) }
                dbManaged
        ∧ (rpFresh.complete dbManaged).2.2.2.2
            = [Effect.deleteViaAdapter rpFresh.tableName rpFresh.partitionId,
               Effect.txCommit]) :=
  C3_partition_delete_protocol rpFresh dbManaged
    { columns := [("x", "t"), (PartitonIdKeyword, "t")],
      rows := [[("x", "1"), (PartitonIdKeyword, "2024-01")],
               [("x", "2"), (PartitonIdKeyword, "2023-12")]] }
    "t" rfl rfl rfl rfl

theorem C7_status_machine_witness :
    (fsCexRun.complete.1.complete
        = (fsCexRun.complete.1, fsCexRun.complete.1.state, some "stream is not active", none)
      ∧ fsCexRun.complete.1.abort
        = (fsCexRun.complete.1, fsCexRun.complete.1.state, some "stream is not active")
      ∧ (rpErrStream.complete []).1.complete dbManaged
        = ((rpErrStream.complete []).1, dbManaged, (rpErrStream.complete []).1.state,
            some "stream is not active", [])
      ∧ (rpErrStream.complete []).1.abort
        = ((rpErrStream.complete []).1, (rpErrStream.complete []).1.state,
            some "stream is not active"))
    ∧ ((fsMergeStream.consume [("id", "1")]).1.state.status = fsMergeStream.state.status)
    ∧ (fsMergeStream.complete.1.state.status = fsMergeStream.state.status
        ∨ (fsMergeStream.state.status = .active
            ∧ (fsMergeStream.complete.1.state.status = .completed
                ∨ fsMergeStream.complete.1.state.status = .failed)))
    ∧ (fsMergeStream.abort.1.state.status = fsMergeStream.state.status
        ∨ (fsMergeStream.state.status = .active
            ∧ fsMergeStream.abort.1.state.status = .aborted))
    ∧ ((rpFresh.consume [("x", "1")]).1.state.status = rpFresh.state.status)
    ∧ ((rpFresh.complete dbManaged).1.state.status = rpFresh.state.status
        ∨ (rpFresh.state.status = .active
            ∧ ((rpFresh.complete dbManaged).1.state.status = .completed
                ∨ (rpFresh.complete dbManaged).1.state.status = .failed)))
    ∧ (rpFresh.abort.1.state.status = rpFresh.state.status
        ∨ (rpFresh.state.status = .active ∧ rpFresh.abort.1.state.status = .aborted)) :=
  C7_status_machine fsCexRun.complete.1 fsMergeStream [("id", "1")]
    (rpErrStream.complete []).1 rpFresh dbManaged dbManaged [("x", "1")]
    (by decide) (by decide)

end Bulker
